import Mathlib

set_option maxRecDepth 40000

/- Shallow embedding of app.py: a single-route Flask handler.  The handler
   accepts GET (render the empty form) and POST (process two uploaded files):
   it checks that the AzureOpenAI client was configured, checks the two file
   fields, decodes both files as UTF-8 text ignoring invalid bytes, builds a
   fixed prompt embedding both texts, issues one chat-completion call, strips
   an optional markdown code fence from the response text, parses it as JSON
   and renders either the parsed object or an error message. -/

/- ------------------------------------------------------------------ -/
/- Python string primitives.                                           -/
/- ------------------------------------------------------------------ -/

/-- The four whitespace characters the Python json module skips between
JSON tokens (json.decoder.WHITESPACE is the regex class of space, tab,
newline, carriage return). -/
def isJws (c : Char) : Bool :=
  c == ' ' || c == '\t' || c == '\n' || c == '\r'

/-- The characters Python str.strip removes: every code point for which
str.isspace holds. -/
def isPyWs (c : Char) : Bool :=
  c.toNat == 0x09 || c.toNat == 0x0A || c.toNat == 0x0B || c.toNat == 0x0C ||
  c.toNat == 0x0D || c.toNat == 0x1C || c.toNat == 0x1D || c.toNat == 0x1E ||
  c.toNat == 0x1F || c.toNat == 0x20 || c.toNat == 0x85 || c.toNat == 0xA0 ||
  c.toNat == 0x1680 || c.toNat == 0x2000 || c.toNat == 0x2001 ||
  c.toNat == 0x2002 || c.toNat == 0x2003 || c.toNat == 0x2004 ||
  c.toNat == 0x2005 || c.toNat == 0x2006 || c.toNat == 0x2007 ||
  c.toNat == 0x2008 || c.toNat == 0x2009 || c.toNat == 0x200A ||
  c.toNat == 0x2028 || c.toNat == 0x2029 || c.toNat == 0x202F ||
  c.toNat == 0x205F || c.toNat == 0x3000

/-- Skip the JSON-whitespace prefix of a character list. -/
def skipJws (l : List Char) : List Char := l.dropWhile isJws

/-- Python str.lstrip with no argument, on a character list. -/
def plstrip (l : List Char) : List Char := l.dropWhile isPyWs

/-- Python str.rstrip with no argument, on a character list. -/
def prstrip (l : List Char) : List Char := (l.reverse.dropWhile isPyWs).reverse

/-- Python str.strip with no argument, on a character list. -/
def pyStripL (l : List Char) : List Char := plstrip (prstrip l)

/-- Python str.strip with no argument, on a string. -/
def pyStrip (s : String) : String := String.mk (pyStripL s.data)

/-- Remove the last n elements of a list; together with List.drop this
models a Python slice with a negative stop index. -/
def dropRightN (n : Nat) (l : List α) : List α := l.take (l.length - n)

/-- Does the second list start with the first one? -/
def startsWithL : List Char → List Char → Bool
  | [], _ => true
  | _ :: _, [] => false
  | p :: ps, c :: cs => p == c && startsWithL ps cs

/- ------------------------------------------------------------------ -/
/- bytes.decode("utf-8", errors="ignore").                             -/
/- ------------------------------------------------------------------ -/

/-- Is the byte a UTF-8 continuation byte? -/
def isCont (b : Nat) : Bool := decide (0x80 ≤ b) && decide (b ≤ 0xBF)

/-- Valid range of the second byte of a multi-byte UTF-8 sequence whose lead
byte is b1 (this encodes the overlong, surrogate and out-of-range checks of
the CPython UTF-8 decoder). -/
def validSecond (b1 b2 : Nat) : Bool :=
  if b1 == 0xE0 then decide (0xA0 ≤ b2) && decide (b2 ≤ 0xBF)
  else if b1 == 0xED then decide (0x80 ≤ b2) && decide (b2 ≤ 0x9F)
  else if b1 == 0xF0 then decide (0x90 ≤ b2) && decide (b2 ≤ 0xBF)
  else if b1 == 0xF4 then decide (0x80 ≤ b2) && decide (b2 ≤ 0x8F)
  else isCont b2

/-- One pass of UTF-8 decoding with errors="ignore": any invalid lead byte is
skipped and decoding resumes at the next byte.  Skipping one byte at a time
produces the same output as CPython, which skips the maximal invalid subpart:
the bytes CPython additionally skips are stray continuation bytes, and those
are skipped here too, one at a time, producing no output either way.  The
fuel argument is at least the number of remaining bytes plus one, and each
step consumes at least one byte. -/
def utf8Go : Nat → List Nat → List Char
  | 0, _ => []
  | _ + 1, [] => []
  | f + 1, b1 :: r =>
    if b1 ≤ 0x7F then Char.ofNat b1 :: utf8Go f r
    else if decide (0xC2 ≤ b1) && decide (b1 ≤ 0xDF) then
      match r with
      | b2 :: r2 =>
        if isCont b2 then
          Char.ofNat ((b1 - 0xC0) * 0x40 + (b2 - 0x80)) :: utf8Go f r2
        else utf8Go f r
      | [] => []
    else if decide (0xE0 ≤ b1) && decide (b1 ≤ 0xEF) then
      match r with
      | b2 :: b3 :: r3 =>
        if validSecond b1 b2 && isCont b3 then
          Char.ofNat ((b1 - 0xE0) * 0x1000 + (b2 - 0x80) * 0x40 + (b3 - 0x80))
            :: utf8Go f r3
        else utf8Go f r
      | _ => utf8Go f r
    else if decide (0xF0 ≤ b1) && decide (b1 ≤ 0xF4) then
      match r with
      | b2 :: b3 :: b4 :: r4 =>
        if validSecond b1 b2 && isCont b3 && isCont b4 then
          Char.ofNat ((b1 - 0xF0) * 0x40000 + (b2 - 0x80) * 0x1000 +
              (b3 - 0x80) * 0x40 + (b4 - 0x80)) :: utf8Go f r4
        else utf8Go f r
      | _ => utf8Go f r
    else utf8Go f r

/-- bytes.decode("utf-8", errors="ignore"): total, never raises. -/
def decodeUtf8Ignore (bs : List Nat) : String :=
  String.mk (utf8Go (bs.length + 1) bs)

/- ------------------------------------------------------------------ -/
/- json.loads, modelled after CPython json/decoder.py and json/scanner.py:
   the input is lexed into tokens (the lexers below mirror py_scanstring,
   NUMBER_RE and the constant scanners), and the token list is parsed by
   recursive descent (mirroring JSONObject, JSONArray and _scan_once).
   Lexing the whole input first is equivalent at the level of the observable
   result (parsed value, or failure) because the scanner only ever stops at
   a whitespace-separated token boundary, and any text left over after the
   value raises the Extra data error, which is a failure here too.          -/
/- ------------------------------------------------------------------ -/

/-- A parsed JSON value.  Strings are lists of code points, as in Python,
where a decoded string may contain lone surrogates.  A number is kept as its
source token (the app never inspects numbers, so their numeric value is
irrelevant here); NaN, Infinity and -Infinity are number tokens as well.
An object is an association list built with dict insertion semantics. -/
inductive Json where
  | null
  | bool (b : Bool)
  | num (tok : List Char)
  | str (codes : List Nat)
  | arr (elems : List Json)
  | obj (members : List (List Nat × Json))

/-- JSON lexical tokens. -/
inductive Tok where
  | lbrace | rbrace | lbrack | rbrack | comma | colon
  | tTrue | tFalse | tNull
  | str (codes : List Nat)
  | num (tok : List Char)

/-- Value of one hexadecimal digit. -/
def hexVal (c : Char) : Option Nat :=
  if c.isDigit then some (c.toNat - 48)
  else if decide ('a' ≤ c) && decide (c ≤ 'f') then some (c.toNat - 87)
  else if decide ('A' ≤ c) && decide (c ≤ 'F') then some (c.toNat - 55)
  else none

/-- Four hexadecimal digits, as in a JSON \u escape. -/
def lexU4 (l : List Char) : Option (Nat × List Char) :=
  match l with
  | a :: b :: c :: d :: r =>
    match hexVal a, hexVal b, hexVal c, hexVal d with
    | some x, some y, some z, some w => some (x * 4096 + y * 256 + z * 16 + w, r)
    | _, _, _, _ => none
  | _ => none

/-- The single-character JSON string escapes (BACKSLASH in json/decoder.py). -/
def escChar (e : Char) : Option Nat :=
  if e == '"' then some 0x22
  else if e == '\\' then some 0x5C
  else if e == '/' then some 0x2F
  else if e == 'b' then some 0x08
  else if e == 'f' then some 0x0C
  else if e == 'n' then some 0x0A
  else if e == 'r' then some 0x0D
  else if e == 't' then some 0x09
  else none

/-- Lex a JSON string, starting just after the opening quote, returning the
decoded code points and the input after the closing quote.  Mirrors CPython
py_scanstring in strict mode: raw control characters below 0x20 are
rejected, unknown escapes are rejected, a \u escape of a high surrogate
immediately followed by a \u escape of a low surrogate is combined, and any
other surrogate escape is kept as a lone code point.  Each step consumes at
least one character, so fuel of the input length plus one suffices. -/
def lexString : Nat → List Char → Option (List Nat × List Char)
  | 0, _ => none
  | f + 1, l =>
    match l with
    | [] => none
    | c :: r =>
      if c == '"' then some ([], r)
      else if c == '\\' then
        match r with
        | [] => none
        | e :: r2 =>
          if e == 'u' then
            match lexU4 r2 with
            | none => none
            | some (n, r3) =>
              if decide (0xD800 ≤ n) && decide (n ≤ 0xDBFF) then
                match r3 with
                | c1 :: c2 :: r4 =>
                  if c1 == '\\' && c2 == 'u' then
                    match lexU4 r4 with
                    | none => none
                    | some (m, r5) =>
                      if decide (0xDC00 ≤ m) && decide (m ≤ 0xDFFF) then
                        (lexString f r5).map (fun p =>
                          ((0x10000 + (n - 0xD800) * 0x400 + (m - 0xDC00)) :: p.1, p.2))
                      else (lexString f r3).map (fun p => (n :: p.1, p.2))
                  else (lexString f r3).map (fun p => (n :: p.1, p.2))
                | _ => (lexString f r3).map (fun p => (n :: p.1, p.2))
              else (lexString f r3).map (fun p => (n :: p.1, p.2))
          else
            match escChar e with
            | some ec => (lexString f r2).map (fun p => (ec :: p.1, p.2))
            | none => none
      else if decide (c.toNat < 0x20) then none
      else (lexString f r).map (fun p => (c.toNat :: p.1, p.2))

/-- Split off the maximal digit prefix. -/
def spanDigits (l : List Char) : List Char × List Char :=
  (l.takeWhile Char.isDigit, l.dropWhile Char.isDigit)

/-- The integer part of the JSON number grammar: 0 or [1-9][0-9]*. -/
def lexInt : List Char → Option (List Char × List Char)
  | [] => none
  | c :: r =>
    if c == '0' then some (['0'], r)
    else if c.isDigit then
      let p := spanDigits r
      some (c :: p.1, p.2)
    else none

/-- The optional fraction part of the JSON number grammar; consumes nothing
when the group does not match, like the regex group in NUMBER_RE. -/
def lexFrac (l : List Char) : List Char × List Char :=
  match l with
  | c :: r =>
    if c == '.' then
      match spanDigits r with
      | ([], _) => ([], c :: r)
      | (ds, r2) => (c :: ds, r2)
    else ([], c :: r)
  | [] => ([], [])

/-- The optional exponent part of the JSON number grammar; consumes nothing
when the group does not match. -/
def lexExp (l : List Char) : List Char × List Char :=
  match l with
  | c :: r =>
    if c == 'e' || c == 'E' then
      match r with
      | s :: r2 =>
        if s == '+' || s == '-' then
          match spanDigits r2 with
          | ([], _) => ([], c :: r)
          | (ds, r3) => (c :: s :: ds, r3)
        else
          match spanDigits r with
          | ([], _) => ([], c :: r)
          | (ds, r3) => (c :: ds, r3)
      | [] => ([], c :: r)
    else ([], c :: r)
  | [] => ([], [])

/-- Lex a JSON number token (the match of NUMBER_RE): the returned token is
exactly the span of consumed characters. -/
def lexNumber (l : List Char) : Option (List Char × List Char) :=
  match l with
  | [] => none
  | c :: r =>
    if c == '-' then
      match lexInt r with
      | none => none
      | some (ip, r2) =>
        let fp := lexFrac r2
        let ep := lexExp fp.2
        some (c :: (ip ++ fp.1 ++ ep.1), ep.2)
    else
      match lexInt (c :: r) with
      | none => none
      | some (ip, r2) =>
        let fp := lexFrac r2
        let ep := lexExp fp.2
        some (ip ++ fp.1 ++ ep.1, ep.2)

/-- Lex one token.  The dispatch on the first character mirrors _scan_once:
punctuation, string, the constants true/false/null/NaN/Infinity, then the
number regex, then -Infinity. -/
def lexToken (l : List Char) : Option (Tok × List Char) :=
  match l with
  | [] => none
  | c :: r =>
    if c == '\x7b' then some (Tok.lbrace, r)
    else if c == '\x7d' then some (Tok.rbrace, r)
    else if c == '[' then some (Tok.lbrack, r)
    else if c == ']' then some (Tok.rbrack, r)
    else if c == ',' then some (Tok.comma, r)
    else if c == ':' then some (Tok.colon, r)
    else if c == '"' then (lexString (r.length + 1) r).map (fun p => (Tok.str p.1, p.2))
    else if c == 't' then
      if startsWithL ['r', 'u', 'e'] r then some (Tok.tTrue, r.drop 3) else none
    else if c == 'f' then
      if startsWithL ['a', 'l', 's', 'e'] r then some (Tok.tFalse, r.drop 4) else none
    else if c == 'n' then
      if startsWithL ['u', 'l', 'l'] r then some (Tok.tNull, r.drop 3) else none
    else if c == 'N' then
      if startsWithL ['a', 'N'] r then some (Tok.num ['N', 'a', 'N'], r.drop 2) else none
    else if c == 'I' then
      if startsWithL ['n', 'f', 'i', 'n', 'i', 't', 'y'] r then
        some (Tok.num ['I', 'n', 'f', 'i', 'n', 'i', 't', 'y'], r.drop 7)
      else none
    else if c == '-' || c.isDigit then
      match lexNumber l with
      | some p => some (Tok.num p.1, p.2)
      | none =>
        if c == '-' && startsWithL ['I', 'n', 'f', 'i', 'n', 'i', 't', 'y'] r then
          some (Tok.num ('-' :: ['I', 'n', 'f', 'i', 'n', 'i', 't', 'y']), r.drop 8)
        else none
    else none

/-- Lex the whole input into tokens, skipping JSON whitespace. -/
def tokenize : Nat → List Char → Option (List Tok)
  | 0, _ => none
  | f + 1, l =>
    match skipJws l with
    | [] => some []
    | c :: r =>
      match lexToken (c :: r) with
      | none => none
      | some (t, rest) =>
        match tokenize f rest with
        | none => none
        | some ts => some (t :: ts)

/-- Insert a key/value pair as Python dict assignment does: replace the value
in place when the key is present, append otherwise. -/
def insertKV : List (List Nat × Json) → List Nat → Json → List (List Nat × Json)
  | [], k, v => [(k, v)]
  | (k', v') :: rest, k, v =>
    if k' == k then (k', v) :: rest else (k', v') :: insertKV rest k v

/-- Build the object dictionary from the parsed pair list, left to right. -/
def buildDict (ps : List (List Nat × Json)) : List (List Nat × Json) :=
  ps.foldl (fun acc kv => insertKV acc kv.1 kv.2) []

mutual

/-- Parse one JSON value from the token list (mirrors _scan_once). -/
def pVal : Nat → List Tok → Option (Json × List Tok)
  | 0, _ => none
  | f + 1, ts =>
    match ts with
    | Tok.tNull :: r => some (Json.null, r)
    | Tok.tTrue :: r => some (Json.bool true, r)
    | Tok.tFalse :: r => some (Json.bool false, r)
    | Tok.num tok :: r => some (Json.num tok, r)
    | Tok.str cs :: r => some (Json.str cs, r)
    | Tok.lbrack :: r =>
      match r with
      | Tok.rbrack :: r2 => some (Json.arr [], r2)
      | _ =>
        match pArr f r with
        | some (vs, r2) => some (Json.arr vs, r2)
        | none => none
    | Tok.lbrace :: r =>
      match r with
      | Tok.rbrace :: r2 => some (Json.obj [], r2)
      | _ =>
        match pObj f r with
        | some (ps, r2) => some (Json.obj (buildDict ps), r2)
        | none => none
    | _ => none

/-- Parse the comma-separated elements of a non-empty array up to and
including the closing bracket (mirrors JSONArray). -/
def pArr : Nat → List Tok → Option (List Json × List Tok)
  | 0, _ => none
  | f + 1, ts =>
    match pVal f ts with
    | none => none
    | some (v, r) =>
      match r with
      | Tok.comma :: r2 =>
        match pArr f r2 with
        | some (vs, r3) => some (v :: vs, r3)
        | none => none
      | Tok.rbrack :: r2 => some ([v], r2)
      | _ => none

/-- Parse the members of a non-empty object up to and including the closing
brace, as a pair list in source order (mirrors JSONObject). -/
def pObj : Nat → List Tok → Option (List (List Nat × Json) × List Tok)
  | 0, _ => none
  | f + 1, ts =>
    match ts with
    | Tok.str k :: Tok.colon :: r =>
      match pVal f r with
      | none => none
      | some (v, r2) =>
        match r2 with
        | Tok.comma :: r3 =>
          match pObj f r3 with
          | some (ps, r4) => some ((k, v) :: ps, r4)
          | none => none
        | Tok.rbrace :: r3 => some ([(k, v)], r3)
        | _ => none
    | _ => none

end

/-- Parse a token list as one JSON value with nothing left over (leftover
tokens are the Extra data error of json.loads). -/
def parseTop (ts : List Tok) : Option Json :=
  match pVal (2 * ts.length + 2) ts with
  | some (v, []) => some v
  | _ => none

/-- json.loads on a string: lex, then parse exactly one value. -/
def json_loads (s : String) : Option Json :=
  match tokenize (s.data.length + 1) s.data with
  | none => none
  | some ts => parseTop ts

/- ------------------------------------------------------------------ -/
/- The application model, transcribed from app.py.                     -/
/- ------------------------------------------------------------------ -/

/-- An uploaded file as the handler sees it: werkzeug FileStorage is falsy
exactly when it has no filename, and reading it either yields the raw bytes
or raises.  Invalid UTF-8 cannot raise: decoding uses errors="ignore". -/
structure UploadedFile where
  filename : String
  readResult : Except Unit (List Nat)

/-- get_file_content of app.py: decode the bytes as UTF-8 ignoring invalid
byte sequences; if reading raised, fall back to a placeholder string. -/
def get_file_content (f : UploadedFile) : String :=
  match f.readResult with
  | Except.ok bs => decodeUtf8Ignore bs
  | Except.error _ => "Could not read file content."

/-- The HTTP method of the request; the route accepts GET and POST. -/
inductive Method where
  | GET
  | POST

/-- A request: method plus the two multipart file fields, each absent or
present (request.files.get returns None for an absent field). -/
structure Request where
  method : Method
  file1 : Option UploadedFile
  file2 : Option UploadedFile

/-- The fixed instruction text of the prompt, up to the document markers. -/
def promptIntro : String :=
  "You are an AI assistant that compares two documents and highlights their differences. " ++
  "Your task is to return the full text of both documents, keeping the original text and structure intact as much as possible. " ++
  "In the returned documents, highlight the specific word-level differences. " ++
  "Wrap deleted text in Document 1 with `<del>` tags. " ++
  "Wrap added text in Document 2 with `<ins>` tags. " ++
  "For lines that are completely new or deleted, wrap the entire line. " ++
  "For lines that have only minor changes, only wrap the changed words.\n\n" ++
  "Also, provide a summary of the changes. " ++
  "The entire output MUST be a single, valid JSON object with three keys: \x27doc1_highlighted\x27 (string), " ++
  "\x27doc2_highlighted\x27 (string), and \x27summary\x27 (JSON array of strings). " ++
  "Each string in the \x27summary\x27 array should describe a single difference, including the line number where it occurred. " ++
  "For example: [\"Difference at line 20: \x27brown\x27 in Document 1 was replaced with \x27red\x27 in Document 2.\"]. " ++
  "Do not include any conversational text or formatting outside of the main JSON object.\n\n"

/-- The prompt of app.py: the instructions followed by both document texts
embedded verbatim between the document markers. -/
def buildPrompt (content1 content2 : String) : String :=
  promptIntro ++
  "--- Document 1 ---\n" ++ content1 ++ "\n" ++
  "--- Document 2 ---\n" ++ content2 ++ "\n" ++
  "--- End of Documents ---"

/-- The system message of the chat-completion call. -/
def sysMessage : String :=
  "You are a helpful AI document comparison assistant that returns JSON."

/-- One outbound chat-completion call: the model (deployment) name as read
from the environment, the conversation as role/content pairs, and the
temperature. -/
structure ChatCall where
  model : Option String
  messages : List (String × String)
  temperature : Nat

/-- The rendered page: the parsed result object and the error message, each
optional (render_template receives results=None and error=None on GET). -/
structure Rendered where
  results : Option Json
  error : Option String

/-- What one request produces: the rendered page and the list of upstream
chat-completion calls issued while handling it. -/
structure HandlerOutput where
  page : Rendered
  calls : List ChatCall

/-- Error message rendered when the client failed to initialize. -/
def configErrorMsg : String :=
  "The Azure OpenAI client is not configured. Please check the server logs for details."

/-- Error message rendered when a file field is missing. -/
def missingFilesMsg : String :=
  "Please upload both files to compare."

/-- Error message rendered when the response is not valid JSON. -/
def invalidFormatMsg : String :=
  "The AI returned an invalid format. Please try again."

/-- Front part of the message rendered when the API call raises. -/
def unexpectedErrorMsg : String :=
  "An unexpected error occurred. Please check the terminal for the full traceback. Error: "

/-- The response clean-up of app.py lines 87-88: if the stripped response
text starts with a markdown JSON fence, take the slice from index 7 to
index -3 of the stripped text and strip that; otherwise leave the text
as it is. -/
def postprocess (t : String) : String :=
  let st := pyStripL t.data
  if startsWithL ("```json").data st then
    String.mk (pyStripL (dropRightN 3 (st.drop 7)))
  else t

/-- The route handler of app.py.  clientOk models whether the module-level
AzureOpenAI client initialized (client is not None); deployment models
os.getenv of the deployment name; api models the chat-completion endpoint
together with the extraction of response.choices[0].message.content, either
returning the response text or raising.  The returned calls list records
every call issued to the endpoint. -/
def index (clientOk : Bool) (deployment : Option String) (req : Request)
    (api : ChatCall → Except String String) : HandlerOutput :=
  match req.method with
  | Method.GET => { page := { results := none, error := none }, calls := [] }
  | Method.POST =>
    if !clientOk then
      { page := { results := none, error := some configErrorMsg }, calls := [] }
    else
      match req.file1, req.file2 with
      | some f1, some f2 =>
        if f1.filename == "" || f2.filename == "" then
          { page := { results := none, error := some missingFilesMsg }, calls := [] }
        else
          let content1 := get_file_content f1
          let content2 := get_file_content f2
          let prompt := buildPrompt content1 content2
          let call : ChatCall :=
            { model := deployment,
              messages := [("system", sysMessage), ("user", prompt)],
              temperature := 0 }
          match api call with
          | Except.error e =>
            { page := { results := none, error := some (unexpectedErrorMsg ++ e) },
              calls := [call] }
          | Except.ok text =>
            match json_loads (postprocess text) with
            | some j => { page := { results := some j, error := none }, calls := [call] }
            | none =>
              { page := { results := none, error := some invalidFormatMsg },
                calls := [call] }
      | _, _ =>
        { page := { results := none, error := some missingFilesMsg }, calls := [] }

/- ------------------------------------------------------------------ -/
/- Helpers for theorem statements.                                     -/
/- ------------------------------------------------------------------ -/

/-- Truthiness of a file field, as the test in app.py line 47 sees it:
request.files.get gives None for an absent field, and a FileStorage is
falsy exactly when its filename is empty. -/
def fileFalsy : Option UploadedFile → Bool
  | none => true
  | some f => f.filename == ""

/-- Code points of a string, for comparing with parsed JSON strings. -/
def codes (s : String) : List Nat := s.data.map Char.toNat

/-- Does the JSON value have the given key, at the top level? -/
def hasKey (j : Json) (k : String) : Bool :=
  match j with
  | Json.obj ms => ms.any (fun kv => kv.1 == codes k)
  | _ => false

/-- The stubbed upstream response text of the spec example (a single-line
JSON object with the three expected keys). -/
def stubResponse : String :=
  "\x7b\"doc1_highlighted\":\"The quick <del>brown</del> fox\",\"doc2_highlighted\":\"The quick <ins>red</ins> fox\",\"summary\":[\"Difference at line 1: \x27brown\x27 in Document 1 was replaced with \x27red\x27 in Document 2.\"]\x7d"

/-- The JSON object that stubResponse parses to. -/
def stubParsed : Json :=
  Json.obj
    [(codes "doc1_highlighted", Json.str (codes "The quick <del>brown</del> fox")),
     (codes "doc2_highlighted", Json.str (codes "The quick <ins>red</ins> fox")),
     (codes "summary", Json.arr
       [Json.str (codes "Difference at line 1: \x27brown\x27 in Document 1 was replaced with \x27red\x27 in Document 2.")])]

/-- C3: on POST with an unconfigured client the handler renders the
configuration error with no results, issues no upstream call, and does so
for every value of the file fields and of the endpoint, that is, before any
file check, decode or prompt work. -/
theorem claim_C3 (deployment : Option String) (req : Request)
    (api : ChatCall → Except String String) (hm : req.method = Method.POST) :
    index false deployment req api =
      { page := { results := none, error := some configErrorMsg }, calls := [] } := by
  obtain ⟨m, f1, f2⟩ := req
  simp only at hm
  subst hm
  simp [index]

theorem claim_C3_witness :
    index false none { method := Method.POST, file1 := none, file2 := none }
      (fun _ => Except.error "boom") =
      { page := { results := none, error := some configErrorMsg }, calls := [] } :=
  claim_C3 none _ _ rfl

/-- C2: on POST with a configured client, if either file field is absent or
falsy the handler renders exactly the missing-files error, with no results
and no upstream call. -/
theorem claim_C2 (deployment : Option String) (req : Request)
    (api : ChatCall → Except String String) (hm : req.method = Method.POST)
    (hf : fileFalsy req.file1 || fileFalsy req.file2 = true) :
    index true deployment req api =
      { page := { results := none, error := some missingFilesMsg }, calls := [] } := by
  obtain ⟨m, f1, f2⟩ := req
  simp only at hm hf
  subst hm
  cases f1 with
  | none => simp [index]
  | some a =>
    cases f2 with
    | none => simp [index]
    | some b =>
      simp only [fileFalsy] at hf
      have hc : (a.filename == "" || b.filename == "") = true := by
        simp only [Bool.or_eq_true] at hf ⊢
        rcases hf with h | h
        · exact Or.inl h
        · exact Or.inr (by simpa using h)
      simp [index, hc]

theorem claim_C2_witness :
    index true (some "gpt") 
      { method := Method.POST, file1 := none,
        file2 := some { filename := "b.txt", readResult := Except.ok [] } }
      (fun _ => Except.error "boom") =
      { page := { results := none, error := some missingFilesMsg }, calls := [] } :=
  claim_C2 (some "gpt") _ _ rfl (by decide)

/-- C5: on POST with a configured client and both files present, if the
upstream call succeeds but the response text after fence-stripping is not
valid JSON, the handler renders the fixed invalid-format message and no
result object. -/
theorem claim_C5 (deployment : Option String) (req : Request)
    (api : ChatCall → Except String String) (f1 f2 : UploadedFile) (t : String)
    (hm : req.method = Method.POST)
    (h1 : req.file1 = some f1) (h2 : req.file2 = some f2)
    (hn1 : f1.filename ≠ "") (hn2 : f2.filename ≠ "")
    (hapi : ∀ c, api c = Except.ok t)
    (hbad : json_loads (postprocess t) = none) :
    (index true deployment req api).page =
      { results := none, error := some invalidFormatMsg } := by
  obtain ⟨m, g1, g2⟩ := req
  simp only at hm h1 h2
  subst hm h1 h2
  have hc : (f1.filename == "" || f2.filename == "") = false := by simp [hn1, hn2]
  simp [index, hc, hapi, hbad]

theorem claim_C5_witness :
    (index true (some "gpt")
      { method := Method.POST,
        file1 := some { filename := "a.txt", readResult := Except.ok [0x61] },
        file2 := some { filename := "b.txt", readResult := Except.ok [0x62] } }
      (fun _ => Except.ok "not json")).page =
      { results := none, error := some invalidFormatMsg } :=
  claim_C5 (some "gpt") _ _ _ _ "not json" rfl rfl rfl
    (by decide) (by decide) (fun _ => rfl) rfl

/-- C6: decoding an uploaded byte stream never raises: for every pair of
byte lists, valid UTF-8 or not, the handler decodes them with invalid
sequences dropped and proceeds to issue the upstream call instead of
failing the request. -/
theorem claim_C6 (deployment : Option String) (req : Request)
    (api : ChatCall → Except String String) (n1 n2 : String) (bs1 bs2 : List Nat)
    (hm : req.method = Method.POST)
    (h1 : req.file1 = some { filename := n1, readResult := Except.ok bs1 })
    (h2 : req.file2 = some { filename := n2, readResult := Except.ok bs2 })
    (hn1 : n1 ≠ "") (hn2 : n2 ≠ "") :
    get_file_content { filename := n1, readResult := Except.ok bs1 } =
        decodeUtf8Ignore bs1 ∧
      (index true deployment req api).calls.length = 1 := by
  obtain ⟨m, g1, g2⟩ := req
  simp only at hm h1 h2
  subst hm h1 h2
  refine ⟨rfl, ?_⟩
  have hc : ((n1 : String) == "" || (n2 : String) == "") = false := by simp [hn1, hn2]
  simp only [index, hc, Bool.not_true, Bool.false_eq_true, if_false, if_true]
  split
  · simp
  · split <;> simp

theorem claim_C6_witness :
    get_file_content { filename := "a.txt", readResult := Except.ok [0xC3, 0x28] } =
        decodeUtf8Ignore [0xC3, 0x28] ∧
      (index true (some "gpt")
        { method := Method.POST,
          file1 := some { filename := "a.txt", readResult := Except.ok [0xC3, 0x28] },
          file2 := some { filename := "b.txt", readResult := Except.ok [0xFF, 0xFE] } }
        (fun _ => Except.ok "true")).calls.length = 1 :=
  claim_C6 (some "gpt") _ _ "a.txt" "b.txt" [0xC3, 0x28] [0xFF, 0xFE]
    rfl rfl rfl (by decide) (by decide)

/-- C7: every POST request that reaches the upstream call issues exactly one
chat-completion call, with temperature 0, the configured deployment name,
and a two-message conversation of the fixed system message and the built
prompt, which embeds both decoded document texts verbatim between the
document markers. -/
theorem claim_C7 (deployment : Option String) (req : Request)
    (api : ChatCall → Except String String) (f1 f2 : UploadedFile)
    (hm : req.method = Method.POST)
    (h1 : req.file1 = some f1) (h2 : req.file2 = some f2)
    (hn1 : f1.filename ≠ "") (hn2 : f2.filename ≠ "") :
    (index true deployment req api).calls =
      [{ model := deployment,
         messages := [("system", sysMessage),
           ("user", promptIntro ++
             "--- Document 1 ---\n" ++ get_file_content f1 ++ "\n" ++
             "--- Document 2 ---\n" ++ get_file_content f2 ++ "\n" ++
             "--- End of Documents ---")],
         temperature := 0 }] := by
  obtain ⟨m, g1, g2⟩ := req
  simp only at hm h1 h2
  subst hm h1 h2
  have hc : (f1.filename == "" || f2.filename == "") = false := by simp [hn1, hn2]
  simp only [index, hc, Bool.not_true, Bool.false_eq_true, if_false, if_true, buildPrompt]
  split
  · simp
  · split <;> simp

theorem claim_C7_witness :
    (index true (some "gpt")
      { method := Method.POST,
        file1 := some { filename := "a.txt", readResult := Except.ok [0x61] },
        file2 := some { filename := "b.txt", readResult := Except.ok [0x62] } }
      (fun _ => Except.ok "true")).calls =
      [{ model := some "gpt",
         messages := [("system", sysMessage),
           ("user", promptIntro ++
             "--- Document 1 ---\n" ++
             get_file_content { filename := "a.txt", readResult := Except.ok [0x61] } ++
             "\n" ++
             "--- Document 2 ---\n" ++
             get_file_content { filename := "b.txt", readResult := Except.ok [0x62] } ++
             "\n" ++
             "--- End of Documents ---")],
         temperature := 0 }] :=
  claim_C7 (some "gpt") _ _ _ _ rfl rfl rfl (by decide) (by decide)

/-- C8: on every request and every outcome the page shows either a full
parsed result object with no error, or no result object: results and error
are never both set, and the handler is a total function, so no exception
escapes it. -/
theorem claim_C8 (clientOk : Bool) (deployment : Option String) (req : Request)
    (api : ChatCall → Except String String) :
    (index clientOk deployment req api).page.results = none ∨
      (index clientOk deployment req api).page.error = none := by
  obtain ⟨m, f1, f2⟩ := req
  cases m
  · simp [index]
  · cases clientOk
    · simp [index]
    · cases f1 with
      | none => simp [index]
      | some a =>
        cases f2 with
        | none => simp [index]
        | some b =>
          cases hab : (a.filename == "" || b.filename == "")
          · simp only [index, hab, Bool.not_true, Bool.false_eq_true, if_false, if_true]
            split
            · simp
            · split <;> simp
          · simp [index, hab]

/-- C9: when reading an uploaded file raises, get_file_content returns the
literal placeholder instead of failing, and the placeholder is embedded in
the prompt as that document content and sent upstream. -/
theorem claim_C9 (deployment : Option String) (req : Request)
    (api : ChatCall → Except String String) (f1 f2 : UploadedFile)
    (hm : req.method = Method.POST)
    (h1 : req.file1 = some f1) (h2 : req.file2 = some f2)
    (hn1 : f1.filename ≠ "") (hn2 : f2.filename ≠ "")
    (hread : f1.readResult = Except.error ()) :
    get_file_content f1 = "Could not read file content." ∧
      (index true deployment req api).calls =
        [{ model := deployment,
           messages := [("system", sysMessage),
             ("user", buildPrompt "Could not read file content."
               (get_file_content f2))],
           temperature := 0 }] := by
  have hph : get_file_content f1 = "Could not read file content." := by
    simp [get_file_content, hread]
  refine ⟨hph, ?_⟩
  obtain ⟨m, g1, g2⟩ := req
  simp only at hm h1 h2
  subst hm h1 h2
  have hc : (f1.filename == "" || f2.filename == "") = false := by simp [hn1, hn2]
  simp only [index, hc, Bool.not_true, Bool.false_eq_true, if_false, if_true, hph]
  split
  · simp
  · split <;> simp

theorem claim_C9_witness :
    get_file_content { filename := "a.txt", readResult := Except.error () } =
        "Could not read file content." ∧
      (index true (some "gpt")
        { method := Method.POST,
          file1 := some { filename := "a.txt", readResult := Except.error () },
          file2 := some { filename := "b.txt", readResult := Except.ok [0x62] } }
        (fun _ => Except.ok "true")).calls =
        [{ model := some "gpt",
           messages := [("system", sysMessage),
             ("user", buildPrompt "Could not read file content."
               (get_file_content { filename := "b.txt", readResult := Except.ok [0x62] }))],
           temperature := 0 }] :=
  claim_C9 (some "gpt") _ _ _ _ rfl rfl rfl (by decide) (by decide) rfl

/-- C10: whenever the stripped response text starts with the json fence
opener, the clean-up takes exactly the slice from index 7 to index -3 of
the stripped text (then strips it), even when no closing fence is present;
in that case the final three characters of the payload itself are removed,
as the concrete unfenced payload in the second part shows. -/
theorem claim_C10 :
    (∀ t : String, startsWithL ("```json").data (pyStripL t.data) = true →
      postprocess t =
        String.mk (pyStripL (dropRightN 3 ((pyStripL t.data).drop 7)))) ∧
      postprocess "```json\n\"abcdef\"" = "\"abcd" := by
  constructor
  · intro t h
    simp [postprocess, h]
  · rfl

theorem claim_C10_witness :
    startsWithL ("```json").data (pyStripL ("```json\n1").data) = true ∧
      postprocess "```json\n1" =
        String.mk (pyStripL (dropRightN 3 ((pyStripL ("```json\n1").data).drop 7))) :=
  ⟨by decide, claim_C10.1 "```json\n1" (by decide)⟩

/- ------------------------------------------------------------------ -/
/- Whitespace and strip lemmas.                                        -/
/- ------------------------------------------------------------------ -/

theorem jws_pyws {c : Char} (h : isJws c = true) : isPyWs c = true := by
  simp only [isJws, Bool.or_eq_true, beq_iff_eq] at h
  rcases h with ((h | h) | h) | h <;> subst h <;> decide

theorem dropWhile_all {p : Char → Bool} {x : List Char} (y : List Char)
    (h : ∀ c ∈ x, p c = true) :
    List.dropWhile p (x ++ y) = List.dropWhile p y := by
  have hc : (List.dropWhile p x).isEmpty = true := by
    simp only [List.isEmpty_iff, List.dropWhile_eq_nil_iff]
    exact h
  rw [List.dropWhile_append, if_pos hc]

theorem dropWhile_cons_false {p : Char → Bool} {c : Char} (y : List Char)
    (h : p c = false) : List.dropWhile p (c :: y) = c :: y := by
  simp [List.dropWhile_cons, h]

theorem prstrip_eq_nil_iff {l : List Char} :
    prstrip l = [] ↔ ∀ c ∈ l, isPyWs c = true := by
  simp [prstrip, List.dropWhile_eq_nil_iff]

theorem prstrip_cons_not {c : Char} (r : List Char) (h : isPyWs c = false) :
    prstrip (c :: r) = c :: prstrip r := by
  simp only [prstrip, List.reverse_cons]
  rw [List.dropWhile_append]
  by_cases he : List.dropWhile isPyWs r.reverse = []
  · simp [he, h]
  · simp only [List.isEmpty_iff, he, if_false]
    simp

theorem prstrip_append_keep {y : List Char} (x : List Char) (h : prstrip y ≠ []) :
    prstrip (x ++ y) = x ++ prstrip y := by
  simp only [prstrip, List.reverse_append]
  rw [List.dropWhile_append]
  have he : ¬(List.dropWhile isPyWs y.reverse).isEmpty = true := by
    simp only [List.isEmpty_iff]
    intro hc
    exact h (by simp [prstrip, hc])
  rw [if_neg he]
  simp

theorem prstrip_append_all {y : List Char} (x : List Char)
    (h : ∀ c ∈ y, isPyWs c = true) : prstrip (x ++ y) = prstrip x := by
  simp only [prstrip, List.reverse_append]
  rw [dropWhile_all _ (by simpa using h)]

theorem prstrip_last_not {d : Char} (x : List Char) (h : isPyWs d = false) :
    prstrip (x ++ [d]) = x ++ [d] := by
  simp only [prstrip, List.reverse_append, List.reverse_cons, List.reverse_nil,
    List.nil_append, List.singleton_append]
  rw [dropWhile_cons_false _ h]
  simp

theorem prstrip_span {d : Char} (x y : List Char) (h : isPyWs d = false) :
    prstrip ((x ++ [d]) ++ y) = (x ++ [d]) ++ prstrip y := by
  by_cases hy : prstrip y = []
  · rw [prstrip_append_all _ (prstrip_eq_nil_iff.mp hy), prstrip_last_not _ h, hy,
      List.append_nil]
  · rw [prstrip_append_keep _ hy]

theorem prstrip_decomp (l : List Char) :
    ∃ w, l = prstrip l ++ w ∧ ∀ c ∈ w, isPyWs c = true := by
  refine ⟨(l.reverse.takeWhile isPyWs).reverse, ?_, ?_⟩
  · have h1 : l.reverse = List.takeWhile isPyWs l.reverse ++ List.dropWhile isPyWs l.reverse :=
      (List.takeWhile_append_dropWhile _ _).symm
    have h2 := congrArg List.reverse h1
    rw [List.reverse_reverse, List.reverse_append] at h2
    exact h2
  · intro c hc
    rw [List.mem_reverse] at hc
    exact List.mem_takeWhile_imp hc

theorem prstrip_length_le (l : List Char) : (prstrip l).length ≤ l.length := by
  simpa [prstrip] using (List.dropWhile_sublist (l := l.reverse) (p := isPyWs)).length_le

theorem plstrip_length_le (l : List Char) : (plstrip l).length ≤ l.length :=
  (List.dropWhile_sublist (l := l) (p := isPyWs)).length_le

theorem pyStripL_length_le (l : List Char) : (pyStripL l).length ≤ l.length :=
  le_trans (plstrip_length_le _) (prstrip_length_le _)

/- ------------------------------------------------------------------ -/
/- Token head characterization.                                        -/
/- ------------------------------------------------------------------ -/

/-- The characters at which lexToken can possibly succeed. -/
def tokHead (c : Char) : Bool :=
  c == '\x7b' || c == '\x7d' || c == '[' || c == ']' || c == ',' || c == ':' ||
  c == '"' || c == 't' || c == 'f' || c == 'n' || c == 'N' || c == 'I' ||
  c == '-' || c.isDigit

theorem lexToken_none {c : Char} (r : List Char) (h : tokHead c = false) :
    lexToken (c :: r) = none := by
  simp only [tokHead, Bool.or_eq_false_iff] at h
  obtain ⟨⟨⟨⟨⟨⟨⟨⟨⟨⟨⟨⟨⟨h1, h2⟩, h3⟩, h4⟩, h5⟩, h6⟩, h7⟩, h8⟩, h9⟩, h10⟩, h11⟩, h12⟩, h13⟩, h14⟩ := h
  simp only [lexToken, h1, h2, h3, h4, h5, h6, h7, h8, h9, h10, h11, h12, h13, h14,
    Bool.or_self, if_false]
  simp

theorem lexToken_head {c : Char} {r : List Char} {x : Tok × List Char}
    (h : lexToken (c :: r) = some x) : tokHead c = true := by
  cases hh : tokHead c
  · rw [lexToken_none r hh] at h
    exact absurd h (by simp)
  · rfl

theorem char_beq_false {a b : Char} (h : a.toNat ≠ b.toNat) : (a == b) = false := by
  rw [beq_eq_false_iff_ne]
  intro hc
  exact h (congrArg Char.toNat hc)

theorem digit_toNat_bounds {c : Char} (h : c.isDigit = true) :
    48 ≤ c.toNat ∧ c.toNat ≤ 57 := by
  simp only [Char.isDigit, Bool.and_eq_true, decide_eq_true_eq] at h
  obtain ⟨h1, h2⟩ := h
  exact ⟨h1, h2⟩

theorem tokHead_not_pyws {c : Char} (h : tokHead c = true) : isPyWs c = false := by
  simp only [tokHead, Bool.or_eq_true, beq_iff_eq] at h
  rcases h with (((((((((((((h | h) | h) | h) | h) | h) | h) | h) | h) | h) | h) | h) | h) | h)
  all_goals first
    | (subst h; decide)
    | · obtain ⟨h1, h2⟩ := digit_toNat_bounds h
        simp only [isPyWs, Bool.or_eq_false_iff, beq_eq_false_iff_ne]
        omega

theorem tokHead_not_fence {c : Char} (z : List Char) (h : tokHead c = true) :
    startsWithL ("```json").data (c :: z) = false := by
  have hfd : ("```json").data = Char.ofNat 0x60 :: ("``json").data := rfl
  rw [hfd]
  simp only [startsWithL, Bool.and_eq_false_iff]
  left
  simp only [tokHead, Bool.or_eq_true, beq_iff_eq] at h
  rcases h with (((((((((((((h | h) | h) | h) | h) | h) | h) | h) | h) | h) | h) | h) | h) | h)
  all_goals first
    | (subst h; decide)
    | · obtain ⟨h1, h2⟩ := digit_toNat_bounds h
        exact char_beq_false (by simp; omega)

/- ------------------------------------------------------------------ -/
/- String lexer: span and replay.                                      -/
/- ------------------------------------------------------------------ -/

theorem lexString_nil (f : Nat) : lexString f [] = none := by
  cases f <;> simp [lexString]

theorem hex_ne_quote {x : Char} (h : (hexVal x).isSome = true) : x ≠ '"' := by
  intro hc
  subst hc
  exact absurd h (by decide)

theorem lexU4_shape {l : List Char} {n : Nat} {r : List Char}
    (h : lexU4 l = some (n, r)) :
    ∃ a b c d, l = a :: b :: c :: d :: r ∧
      (hexVal a).isSome = true ∧ (hexVal b).isSome = true ∧
      (hexVal c).isSome = true ∧ (hexVal d).isSome = true ∧
      ∀ tail, lexU4 (a :: b :: c :: d :: tail) = some (n, tail) := by
  match l with
  | [] => simp [lexU4] at h
  | [a] => simp [lexU4] at h
  | [a, b] => simp [lexU4] at h
  | [a, b, c] => simp [lexU4] at h
  | a :: b :: c :: d :: rest =>
    refine ⟨a, b, c, d, ?_⟩
    simp only [lexU4] at h
    cases ha : hexVal a with
    | none => rw [ha] at h; simp at h
    | some x =>
      cases hb : hexVal b with
      | none => rw [ha, hb] at h; simp at h
      | some y =>
        cases hc : hexVal c with
        | none => rw [ha, hb, hc] at h; simp at h
        | some z =>
          cases hd : hexVal d with
          | none => rw [ha, hb, hc, hd] at h; simp at h
          | some w =>
            rw [ha, hb, hc, hd] at h
            simp only [Option.some_inj, Prod.mk.injEq] at h
            obtain ⟨hn, hr⟩ := h
            subst hr
            refine ⟨rfl, by simp [ha], by simp [hb], by simp [hc], by simp [hd], ?_⟩
            intro tail
            simp [lexU4, ha, hb, hc, hd, hn]

set_option maxHeartbeats 1000000

theorem lexString_replay :
    ∀ f l cs r, lexString f l = some (cs, r) →
      ∃ C, l = C ++ r ∧ C ≠ [] ∧ C.getLast? = some '"' ∧
        ∀ f2 tail, C.length < f2 → lexString f2 (C ++ tail) = some (cs, tail) := by
  intro f
  induction f with
  | zero =>
    intro l cs r h
    simp [lexString] at h
  | succ f IH =>
    intro l cs r h
    match l with
    | [] => rw [lexString_nil] at h; exact absurd h (by simp)
    | c :: r0 =>
      simp only [lexString] at h
      by_cases hq : (c == '"') = true
      · rw [if_pos hq] at h
        simp only [Option.some_inj, Prod.mk.injEq] at h
        obtain ⟨hcs, hr⟩ := h
        subst hcs hr
        have hc : c = '"' := by simpa using hq
        subst hc
        refine ⟨['"'], rfl, by simp, rfl, ?_⟩
        intro f2 tail hf2
        obtain ⟨g, rfl⟩ : ∃ g, f2 = g + 1 := ⟨f2 - 1, by omega⟩
        simp [lexString]
      · rw [if_neg hq] at h
        by_cases hb : (c == '\\') = true
        · rw [if_pos hb] at h
          have hc : c = '\\' := by simpa using hb
          subst hc
          match r0 with
          | [] => exact absurd h (by simp)
          | e :: r2 =>
            dsimp only at h
            by_cases hu : (e == 'u') = true
            · rw [if_pos hu] at h
              have he : e = 'u' := by simpa using hu
              subst he
              cases h4 : lexU4 r2 with
              | none => rw [h4] at h; exact absurd h (by simp)
              | some p =>
                obtain ⟨n, r3⟩ := p
                rw [h4] at h
                dsimp only at h
                obtain ⟨a, b, c', d, hr2, hxa, hxb, hxc, hxd, u4rep⟩ := lexU4_shape h4
                by_cases hs : (decide (0xD800 ≤ n) && decide (n ≤ 0xDBFF)) = true
                · rw [if_pos hs] at h
                  cases r3 with
                  | nil =>
                    dsimp only at h
                    rw [lexString_nil] at h
                    exact absurd h (by simp)
                  | cons c1 r3t =>
                    cases r3t with
                    | nil =>
                      dsimp only at h
                      rw [Option.map_eq_some'] at h
                      obtain ⟨⟨cs', r'⟩, hrec, hmap⟩ := h
                      simp only [Prod.mk.injEq] at hmap
                      obtain ⟨hcs, hr⟩ := hmap
                      subst hcs hr
                      obtain ⟨C3, h3eq, h3ne, h3last, rep3⟩ := IH _ cs' r' hrec
                      obtain ⟨y, ys, rfl⟩ : ∃ y ys, C3 = y :: ys := by
                        cases C3 with
                        | nil => exact absurd rfl h3ne
                        | cons y ys => exact ⟨y, ys, rfl⟩
                      have hy : y = c1 ∧ ys ++ r' = [] := by
                        have := h3eq.symm
                        simp only [List.cons_append, List.cons.injEq] at this
                        exact ⟨this.1, this.2⟩
                      obtain ⟨rfl, hys⟩ := hy
                      obtain ⟨rfl, rfl⟩ : ys = [] ∧ r' = [] := by
                        simpa [List.append_eq_nil] using hys
                      have hc1 : y = '"' := by
                        simpa using h3last
                      subst hc1
                      refine ⟨'\\' :: 'u' :: a :: b :: c' :: d :: ['"'], ?_, by simp, by simp, ?_⟩
                      · simp [hr2]
                      · intro f2 tail hf2
                        obtain ⟨g, rfl⟩ : ∃ g, f2 = g + 1 := ⟨f2 - 1, by omega⟩
                        simp only [List.cons_append, lexString, List.nil_append]
                        rw [if_neg (by decide), if_pos (by decide), if_pos (by decide)]
                        rw [u4rep ('"' :: tail)]
                        dsimp only
                        rw [if_pos hs]
                        cases tail with
                        | nil =>
                          dsimp only
                          have hr3 := rep3 g [] (by simp at hf2 ⊢; omega)
                          simp only [List.append_nil] at hr3
                          rw [hr3]
                          rfl
                        | cons t1 ts =>
                          dsimp only
                          rw [if_neg (by simp [show (('"' : Char) == '\\') = false from rfl])]
                          have hr3 := rep3 g (t1 :: ts) (by simp at hf2 ⊢; omega)
                          simp only [List.cons_append, List.nil_append] at hr3
                          rw [hr3]
                          rfl
                    | cons c2 r4 =>
                      dsimp only at h
                      by_cases hcu : (c1 == '\\' && c2 == 'u') = true
                      · rw [if_pos hcu] at h
                        obtain ⟨hc1, hc2⟩ : c1 = '\\' ∧ c2 = 'u' := by
                          simpa [Bool.and_eq_true] using hcu
                        subst hc1
                        subst hc2
                        cases h42 : lexU4 r4 with
                        | none => rw [h42] at h; exact absurd h (by simp)
                        | some q =>
                          obtain ⟨m, r5⟩ := q
                          rw [h42] at h
                          dsimp only at h
                          obtain ⟨a2, b2, c2', d2, hr4, hxa2, hxb2, hxc2, hxd2, u4rep2⟩ :=
                            lexU4_shape h42
                          by_cases hlow : (decide (0xDC00 ≤ m) && decide (m ≤ 0xDFFF)) = true
                          · rw [if_pos hlow] at h
                            rw [Option.map_eq_some'] at h
                            obtain ⟨⟨cs', r'⟩, hrec, hmap⟩ := h
                            simp only [Prod.mk.injEq] at hmap
                            obtain ⟨hcs, hr⟩ := hmap
                            subst hcs hr
                            obtain ⟨C5, h5eq, h5ne, h5last, rep5⟩ := IH _ cs' r' hrec
                            refine ⟨'\\' :: 'u' :: a :: b :: c' :: d ::
                              '\\' :: 'u' :: a2 :: b2 :: c2' :: d2 :: C5, ?_, by simp, ?_, ?_⟩
                            · simp [hr2, hr4, h5eq]
                            · simp only [List.getLast?_cons_cons]
                              obtain ⟨y, ys, rfl⟩ : ∃ y ys, C5 = y :: ys := by
                                cases C5 with
                                | nil => exact absurd rfl h5ne
                                | cons y ys => exact ⟨y, ys, rfl⟩
                              exact h5last
                            · intro f2 tail hf2
                              obtain ⟨g, rfl⟩ : ∃ g, f2 = g + 1 := ⟨f2 - 1, by omega⟩
                              simp only [List.cons_append, lexString]
                              rw [if_neg (by decide), if_pos (by decide), if_pos (by decide)]
                              rw [u4rep ('\\' :: 'u' :: a2 :: b2 :: c2' :: d2 :: (C5 ++ tail))]
                              dsimp only
                              rw [if_pos hs, if_pos (by decide)]
                              rw [u4rep2 (C5 ++ tail)]
                              dsimp only
                              rw [if_pos hlow]
                              rw [rep5 g tail (by simp at hf2; omega)]
                              rfl
                          · rw [if_neg hlow] at h
                            rw [Option.map_eq_some'] at h
                            obtain ⟨⟨cs', r'⟩, hrec, hmap⟩ := h
                            simp only [Prod.mk.injEq] at hmap
                            obtain ⟨hcs, hr⟩ := hmap
                            subst hcs hr
                            obtain ⟨C3, h3eq, h3ne, h3last, rep3⟩ := IH _ cs' r' hrec
                            obtain ⟨y, ys, rfl⟩ : ∃ y ys, C3 = y :: ys := by
                              cases C3 with
                              | nil => exact absurd rfl h3ne
                              | cons y ys => exact ⟨y, ys, rfl⟩
                            have hy : y = '\\' := by
                              have := h3eq.symm
                              simp only [List.cons_append, List.cons.injEq] at this
                              exact this.1
                            subst hy
                            obtain ⟨z, zs, rfl⟩ : ∃ z zs, ys = z :: zs := by
                              cases ys with
                              | nil =>
                                exfalso
                                have hbq : ('\\' : Char) = '"' := by simpa using h3last
                                exact absurd hbq (by decide)
                              | cons z zs => exact ⟨z, zs, rfl⟩
                            have hz : z = 'u' ∧ zs ++ r' = r4 := by
                              have := h3eq.symm
                              simp only [List.cons_append, List.cons.injEq] at this
                              exact ⟨this.2.1, this.2.2⟩
                            obtain ⟨rfl, hzs⟩ := hz
                            have hzs4 : zs ++ r' = [a2, b2, c2', d2] ++ r5 := by
                              rw [hzs, hr4]
                              rfl
                            have hgl : ('\\' :: 'u' :: zs).getLast? = some '"' := h3last
                            rcases List.append_eq_append_iff.mp hzs4 with ⟨w', hw1, hw2⟩ | ⟨w', hw1, hw2⟩
                            · exfalso
                              cases zs with
                              | nil =>
                                have : ('u' : Char) = '"' := by simpa using hgl
                                exact absurd this (by decide)
                              | cons z1 zs1 =>
                                have hmem : (z1 :: zs1).getLast? = some '"' := by
                                  simpa [List.getLast?_cons_cons] using hgl
                                have hmem2 : ('"' : Char) ∈ z1 :: zs1 :=
                                  List.mem_of_mem_getLast? (by simp [hmem])
                                have hmem3 : ('"' : Char) ∈ [a2, b2, c2', d2] := by
                                  rw [hw1]
                                  exact List.mem_append_left _ hmem2
                                simp only [List.mem_cons, List.not_mem_nil, or_false] at hmem3
                                rcases hmem3 with h' | h' | h' | h'
                                · exact hex_ne_quote hxa2 h'.symm
                                · exact hex_ne_quote hxb2 h'.symm
                                · exact hex_ne_quote hxc2 h'.symm
                                · exact hex_ne_quote hxd2 h'.symm
                            · subst hw1
                              refine ⟨'\\' :: 'u' :: a :: b :: c' :: d ::
                                '\\' :: 'u' :: a2 :: b2 :: c2' :: d2 :: w', ?_, by simp, ?_, ?_⟩
                              · simp only [List.cons_append]
                                rw [hr2]
                                simp only [List.cons.injEq, true_and]
                                rw [← hzs]
                                simp
                              · simp only [List.getLast?_cons_cons]
                                have : ('\\' :: 'u' :: a2 :: b2 :: c2' :: d2 :: w').getLast? =
                                    ('\\' :: 'u' :: (a2 :: b2 :: c2' :: d2 :: w')).getLast? := rfl
                                simpa [List.getLast?_cons_cons] using hgl
                              · intro f2 tail hf2
                                obtain ⟨g, rfl⟩ : ∃ g, f2 = g + 1 := ⟨f2 - 1, by omega⟩
                                simp only [List.cons_append, lexString]
                                rw [if_neg (by decide), if_pos (by decide), if_pos (by decide)]
                                rw [u4rep ('\\' :: 'u' :: a2 :: b2 :: c2' :: d2 :: (w' ++ tail))]
                                dsimp only
                                rw [if_pos hs, if_pos (by decide)]
                                rw [u4rep2 (w' ++ tail)]
                                dsimp only
                                rw [if_neg hlow]
                                have hr3 := rep3 g tail (by simp at hf2 ⊢; omega)
                                simp only [List.cons_append, List.nil_append,
                                  List.append_assoc] at hr3
                                rw [hr3]
                                rfl
                      · rw [if_neg hcu] at h
                        rw [Option.map_eq_some'] at h
                        obtain ⟨⟨cs', r'⟩, hrec, hmap⟩ := h
                        simp only [Prod.mk.injEq] at hmap
                        obtain ⟨hcs, hr⟩ := hmap
                        subst hcs hr
                        obtain ⟨C3, h3eq, h3ne, h3last, rep3⟩ := IH _ cs' r' hrec
                        obtain ⟨y, ys, rfl⟩ : ∃ y ys, C3 = y :: ys := by
                          cases C3 with
                          | nil => exact absurd rfl h3ne
                          | cons y ys => exact ⟨y, ys, rfl⟩
                        have hy : y = c1 := by
                          have := h3eq.symm
                          simp only [List.cons_append, List.cons.injEq] at this
                          exact this.1
                        cases ys with
                        | nil =>
                          have hyq : y = '"' := by simpa using h3last
                          subst hyq
                          have hr' : r' = c2 :: r4 := by
                            have := h3eq
                            simp only [List.singleton_append, List.cons.injEq] at this
                            exact this.2.symm
                          refine ⟨'\\' :: 'u' :: a :: b :: c' :: d :: ['"'], ?_, by simp,
                            by simp, ?_⟩
                          · rw [hr2, hr', ← hy]
                            simp
                          · intro f2 tail hf2
                            obtain ⟨g, rfl⟩ : ∃ g, f2 = g + 1 := ⟨f2 - 1, by omega⟩
                            simp only [List.cons_append, lexString, List.nil_append]
                            rw [if_neg (by decide), if_pos (by decide), if_pos (by decide)]
                            rw [u4rep ('"' :: tail)]
                            dsimp only
                            rw [if_pos hs]
                            cases tail with
                            | nil =>
                              dsimp only
                              have hr3 := rep3 g [] (by simp at hf2 ⊢; omega)
                              simp only [List.append_nil] at hr3
                              rw [hr3]
                              rfl
                            | cons t1 ts =>
                              dsimp only
                              rw [if_neg (by simp [show (('"' : Char) == '\\') = false from rfl])]
                              have hr3 := rep3 g (t1 :: ts) (by simp at hf2 ⊢; omega)
                              simp only [List.cons_append, List.nil_append] at hr3
                              rw [hr3]
                              rfl
                        | cons z zs =>
                          have hz : z = c2 := by
                            have := h3eq.symm
                            simp only [List.cons_append, List.cons.injEq] at this
                            exact this.2.1
                          have hzs : zs ++ r' = r4 := by
                            have := h3eq.symm
                            simp only [List.cons_append, List.cons.injEq] at this
                            exact this.2.2
                          have hcu2 : ¬((y == '\\' && z == 'u') = true) := by
                            rw [hy, hz]
                            exact hcu
                          refine ⟨'\\' :: 'u' :: a :: b :: c' :: d :: y :: z :: zs, ?_,
                            by simp, ?_, ?_⟩
                          · rw [hr2]
                            simp only [List.cons_append, List.cons.injEq, true_and]
                            exact ⟨hy.symm, hz.symm, hzs.symm⟩
                          · simpa [List.getLast?_cons_cons] using h3last
                          · intro f2 tail hf2
                            obtain ⟨g, rfl⟩ : ∃ g, f2 = g + 1 := ⟨f2 - 1, by omega⟩
                            simp only [List.cons_append, lexString]
                            rw [if_neg (by decide), if_pos (by decide), if_pos (by decide)]
                            rw [u4rep (y :: z :: (zs ++ tail))]
                            dsimp only
                            rw [if_pos hs, if_neg hcu2]
                            have hr3 := rep3 g tail (by simp at hf2 ⊢; omega)
                            simp only [List.cons_append] at hr3
                            rw [hr3]
                            rfl
                · rw [if_neg hs] at h
                  rw [Option.map_eq_some'] at h
                  obtain ⟨⟨cs', r'⟩, hrec, hmap⟩ := h
                  simp only [Prod.mk.injEq] at hmap
                  obtain ⟨hcs, hr⟩ := hmap
                  subst hcs hr
                  obtain ⟨C3, h3eq, h3ne, h3last, rep3⟩ := IH r3 cs' r' hrec
                  refine ⟨'\\' :: 'u' :: a :: b :: c' :: d :: C3, ?_, by simp, ?_, ?_⟩
                  · simp [hr2, h3eq]
                  · simp only [List.getLast?_cons_cons]
                    obtain ⟨y, ys, rfl⟩ : ∃ y ys, C3 = y :: ys := by
                      cases C3 with
                      | nil => exact absurd rfl h3ne
                      | cons y ys => exact ⟨y, ys, rfl⟩
                    exact h3last
                  · intro f2 tail hf2
                    obtain ⟨g, rfl⟩ : ∃ g, f2 = g + 1 := ⟨f2 - 1, by omega⟩
                    simp only [List.cons_append, lexString]
                    rw [if_neg (by decide), if_pos (by decide), if_pos (by decide)]
                    rw [u4rep (C3 ++ tail)]
                    dsimp only
                    rw [if_neg hs]
                    rw [rep3 g tail (by simp at hf2; omega)]
                    rfl
            · rw [if_neg hu] at h
              cases hesc : escChar e with
              | none => rw [hesc] at h; exact absurd h (by simp)
              | some ec =>
                rw [hesc] at h
                dsimp only at h
                rw [Option.map_eq_some'] at h
                obtain ⟨⟨cs', r'⟩, hrec, hmap⟩ := h
                simp only [Prod.mk.injEq] at hmap
                obtain ⟨hcs, hr⟩ := hmap
                subst hcs hr
                obtain ⟨C2, h2eq, h2ne, h2last, rep2⟩ := IH r2 cs' r' hrec
                refine ⟨'\\' :: e :: C2, ?_, by simp, ?_, ?_⟩
                · simp [h2eq]
                · simp only [List.getLast?_cons_cons]
                  obtain ⟨y, ys, rfl⟩ : ∃ y ys, C2 = y :: ys := by
                    cases C2 with
                    | nil => exact absurd rfl h2ne
                    | cons y ys => exact ⟨y, ys, rfl⟩
                  exact h2last
                · intro f2 tail hf2
                  obtain ⟨g, rfl⟩ : ∃ g, f2 = g + 1 := ⟨f2 - 1, by omega⟩
                  simp only [List.cons_append, lexString]
                  rw [if_neg (by decide), if_pos (by decide), if_neg hu, hesc]
                  dsimp only
                  rw [rep2 g tail (by simp at hf2; omega)]
                  rfl
        · rw [if_neg hb] at h
          by_cases hctl : (decide (c.toNat < 0x20)) = true
          · rw [if_pos hctl] at h
            exact absurd h (by simp)
          · rw [if_neg hctl] at h
            rw [Option.map_eq_some'] at h
            obtain ⟨⟨cs', r'⟩, hrec, hmap⟩ := h
            simp only [Prod.mk.injEq] at hmap
            obtain ⟨hcs, hr⟩ := hmap
            subst hcs hr
            obtain ⟨C0, h0eq, h0ne, h0last, rep0⟩ := IH r0 cs' r' hrec
            refine ⟨c :: C0, ?_, by simp, ?_, ?_⟩
            · simp [h0eq]
            · obtain ⟨y, ys, rfl⟩ : ∃ y ys, C0 = y :: ys := by
                cases C0 with
                | nil => exact absurd rfl h0ne
                | cons y ys => exact ⟨y, ys, rfl⟩
              rw [List.getLast?_cons_cons]
              exact h0last
            · intro f2 tail hf2
              obtain ⟨g, rfl⟩ : ∃ g, f2 = g + 1 := ⟨f2 - 1, by omega⟩
              simp only [List.cons_append, lexString]
              rw [if_neg hq, if_neg hb, if_neg hctl]
              rw [rep0 g tail (by simp at hf2; omega)]
              rfl

/- ------------------------------------------------------------------ -/
/- Number lexer: span and replay.                                      -/
/- ------------------------------------------------------------------ -/

theorem digit_not_pyws {c : Char} (h : c.isDigit = true) : isPyWs c = false := by
  obtain ⟨h1, h2⟩ := digit_toNat_bounds h
  simp only [isPyWs, Bool.or_eq_false_iff, beq_eq_false_iff_ne]
  omega

theorem digit_ne_of_toNat {c : Char} (d : Char) (h : c.isDigit = true)
    (hd : d.toNat < 48 ∨ 57 < d.toNat) : (c == d) = false := by
  obtain ⟨h1, h2⟩ := digit_toNat_bounds h
  exact char_beq_false (by omega)

theorem spanDigits_append {ds : List Char} (y : List Char)
    (hds : ∀ c ∈ ds, c.isDigit = true)
    (hy : ∀ h, y.head? = some h → h.isDigit = false) :
    spanDigits (ds ++ y) = (ds, y) := by
  induction ds with
  | nil =>
    simp only [List.nil_append, spanDigits]
    cases y with
    | nil => simp
    | cons h t =>
      have := hy h rfl
      simp [List.takeWhile_cons, List.dropWhile_cons, this]
  | cons d ds IH =>
    have hd : d.isDigit = true := hds d (by simp)
    have hrest : ∀ c ∈ ds, c.isDigit = true := fun c hc => hds c (by simp [hc])
    have := IH hrest
    simp only [spanDigits, Prod.mk.injEq] at this
    simp only [List.cons_append, spanDigits, List.takeWhile_cons, List.dropWhile_cons, hd,
      if_true, Prod.mk.injEq]
    exact ⟨by rw [this.1], this.2⟩

theorem spanDigits_run (l : List Char) :
    l = (spanDigits l).1 ++ (spanDigits l).2 ∧
      (∀ c ∈ (spanDigits l).1, c.isDigit = true) ∧
      (∀ h, (spanDigits l).2.head? = some h → h.isDigit = false) := by
  refine ⟨(List.takeWhile_append_dropWhile _ _).symm, ?_, ?_⟩
  · intro c hc
    exact List.mem_takeWhile_imp hc
  · intro h hh
    have := List.head?_dropWhile_not Char.isDigit l
    simp only [spanDigits] at hh
    rw [hh] at this
    exact this

theorem spanDigits_run_eq {l ds rest : List Char} (h : spanDigits l = (ds, rest)) :
    l = ds ++ rest ∧ (∀ c ∈ ds, c.isDigit = true) ∧
      (∀ hd, rest.head? = some hd → hd.isDigit = false) := by
  obtain ⟨h1, h2, h3⟩ := spanDigits_run l
  rw [h] at h1 h2 h3
  exact ⟨h1, h2, h3⟩

theorem trunc_head {rest rest2 w : List Char} {h : Char}
    (he : rest = rest2 ++ w) (hw : ∀ c ∈ w, isPyWs c = true)
    (hh : rest.head? = some h) (hnp : isPyWs h = false) :
    rest2.head? = some h := by
  subst he
  cases rest2 with
  | nil =>
    cases w with
    | nil => simp at hh
    | cons a t =>
      simp only [List.nil_append, List.head?_cons, Option.some_inj] at hh
      have hpw := hw a (by simp)
      rw [hh] at hpw
      exact absurd hpw (by simp [hnp])
  | cons a t => simpa using hh

theorem trunc_head_fail {rest rest2 w : List Char}
    (he : rest = rest2 ++ w) (hw : ∀ c ∈ w, isPyWs c = true)
    (hh : ∀ h, rest.head? = some h → h.isDigit = false) :
    ∀ h, rest2.head? = some h → h.isDigit = false := by
  subst he
  intro h hh2
  cases rest2 with
  | nil => simp at hh2
  | cons a t =>
    simp only [List.head?_cons, Option.some_inj] at hh2
    rw [← hh2]
    exact hh a (by simp)

theorem getLast?_of_ne_nil {l : List Char} (h : l ≠ []) :
    ∃ dl, l.getLast? = some dl ∧ dl ∈ l := by
  cases hgl : l.getLast? with
  | none => rw [List.getLast?_eq_none_iff] at hgl; exact absurd hgl h
  | some dl => exact ⟨dl, rfl, List.mem_of_mem_getLast? (by simp [hgl])⟩

theorem lexInt_replay {l : List Char} {ip r2 : List Char}
    (h : lexInt l = some (ip, r2)) :
    l = ip ++ r2 ∧ ip ≠ [] ∧ (∃ dl, ip.getLast? = some dl ∧ dl.isDigit = true) ∧
      ∀ r2' w, r2 = r2' ++ w → (∀ c ∈ w, isPyWs c = true) →
        lexInt (ip ++ r2') = some (ip, r2') := by
  match l with
  | [] => simp [lexInt] at h
  | c :: r =>
    simp only [lexInt] at h
    by_cases h0 : (c == '0') = true
    · rw [if_pos h0] at h
      simp only [Option.some_inj, Prod.mk.injEq] at h
      obtain ⟨hip, hr⟩ := h
      subst hip hr
      have hc : c = '0' := by simpa using h0
      subst hc
      refine ⟨rfl, by simp, ⟨'0', rfl, by decide⟩, ?_⟩
      intro r2' w he hw
      simp [lexInt]
    · rw [if_neg h0] at h
      by_cases hd : c.isDigit = true
      · rw [if_pos hd] at h
        simp only [Option.some_inj, Prod.mk.injEq] at h
        obtain ⟨hip, hr⟩ := h
        subst hip hr
        obtain ⟨hsp, hall, hfail⟩ := spanDigits_run r
        refine ⟨by simpa using hsp, by simp, ?_, ?_⟩
        · cases hsd : (spanDigits r).1 with
          | nil => exact ⟨c, by simp [hsd], hd⟩
          | cons a t =>
            obtain ⟨dl, hdl, hdlmem⟩ := getLast?_of_ne_nil (l := a :: t) (by simp)
            refine ⟨dl, ?_, ?_⟩
            · rw [List.getLast?_cons_cons]
              exact hdl
            · exact hall dl (by rw [hsd]; exact hdlmem)
        · intro r2' w he hw
          have hfail2 := trunc_head_fail he hw hfail
          simp only [List.cons_append, lexInt, h0, if_false, hd, if_true]
          rw [spanDigits_append r2' (fun c hc => hall c hc) hfail2]
          simp
      · rw [if_neg hd] at h
        exact absurd h (by simp)

theorem spanDigits_nil_of_head {t' : List Char}
    (hfail : ∀ h, t'.head? = some h → h.isDigit = false) :
    spanDigits t' = ([], t') := by
  cases t' with
  | nil => rfl
  | cons b bs =>
    have := hfail b rfl
    simp [spanDigits, List.takeWhile_cons, List.dropWhile_cons, this]

theorem lexFrac_replay {l fp r3 : List Char} (h : lexFrac l = (fp, r3)) :
    l = fp ++ r3 ∧
      (fp ≠ [] → ∃ dl, fp.getLast? = some dl ∧ dl.isDigit = true) ∧
      ∀ r3' w, r3 = r3' ++ w → (∀ c ∈ w, isPyWs c = true) →
        lexFrac (fp ++ r3') = (fp, r3') := by
  match l with
  | [] =>
    simp only [lexFrac, Prod.mk.injEq] at h
    obtain ⟨hfp, hr3⟩ := h
    subst hfp hr3
    refine ⟨rfl, by simp, ?_⟩
    intro r3' w he hw
    have : r3' = [] := by
      cases r3' with
      | nil => rfl
      | cons a t => simp at he
    subst this
    rfl
  | c :: r =>
    by_cases hdot : (c == '.') = true
    · rw [lexFrac, if_pos hdot] at h
      rcases hsp : spanDigits r with ⟨ds, r2⟩
      obtain ⟨hsp1, hall, hfail⟩ := spanDigits_run r
      rw [hsp] at hsp1 hall hfail
      simp only at hsp1 hall hfail
      cases ds with
      | nil =>
        rw [hsp] at h
        dsimp only at h
        simp only [Prod.mk.injEq] at h
        obtain ⟨hfp, hr3⟩ := h
        subst hfp hr3
        refine ⟨by simp, by simp, ?_⟩
        intro r3' w he hw
        cases r3' with
        | nil => rfl
        | cons a t' =>
          simp only [List.cons_append, List.cons.injEq] at he
          obtain ⟨ha, hr⟩ := he
          subst ha
          simp only [List.nil_append]
          rw [lexFrac, if_pos hdot]
          have hr2 : r2 = t' ++ w := by
            simp only [List.nil_append] at hsp1
            rw [← hsp1]
            exact hr
          rw [spanDigits_nil_of_head (trunc_head_fail hr2 hw hfail)]
      | cons d ds' =>
        rw [hsp] at h
        dsimp only at h
        simp only [Prod.mk.injEq] at h
        obtain ⟨hfp, hr3⟩ := h
        subst hfp hr3
        refine ⟨by simp [hsp1], ?_, ?_⟩
        · intro
          obtain ⟨dl, hdl, hdlmem⟩ := getLast?_of_ne_nil (l := d :: ds') (by simp)
          exact ⟨dl, by rw [List.getLast?_cons_cons]; exact hdl, hall dl hdlmem⟩
        · intro r3' w he hw
          simp only [List.cons_append, lexFrac, if_pos hdot]
          have hspa := @spanDigits_append (d :: ds') r3' hall
            (trunc_head_fail he hw hfail)
          simp only [List.cons_append] at hspa
          rw [hspa]
    · rw [lexFrac, if_neg hdot] at h
      simp only [Prod.mk.injEq] at h
      obtain ⟨hfp, hr3⟩ := h
      subst hfp hr3
      refine ⟨by simp, by simp, ?_⟩
      intro r3' w he hw
      cases r3' with
      | nil => rfl
      | cons a t' =>
        simp only [List.cons_append, List.cons.injEq] at he
        obtain ⟨ha, hr⟩ := he
        subst ha
        simp only [List.nil_append]
        rw [lexFrac, if_neg hdot]

theorem lexExp_not_e {c : Char} (r : List Char) (hee : (c == 'e' || c == 'E') = false) :
    lexExp (c :: r) = ([], c :: r) := by
  rw [lexExp.eq_def]
  dsimp only
  rw [if_neg (by simp [hee])]

theorem lexExp_e_nil {c : Char} (hee : (c == 'e' || c == 'E') = true) :
    lexExp [c] = ([], [c]) := by
  rw [lexExp.eq_def]
  dsimp only
  rw [if_pos hee]

theorem lexExp_sign_nomatch {c s : Char} {r2 x : List Char}
    (hee : (c == 'e' || c == 'E') = true) (hsgn : (s == '+' || s == '-') = true)
    (hsp : spanDigits r2 = ([], x)) :
    lexExp (c :: s :: r2) = ([], c :: s :: r2) := by
  rw [lexExp.eq_def]
  dsimp only
  rw [if_pos hee, if_pos hsgn, hsp]

theorem lexExp_sign_match {c s d : Char} {r2 ds r3 : List Char}
    (hee : (c == 'e' || c == 'E') = true) (hsgn : (s == '+' || s == '-') = true)
    (hsp : spanDigits r2 = (d :: ds, r3)) :
    lexExp (c :: s :: r2) = (c :: s :: d :: ds, r3) := by
  rw [lexExp.eq_def]
  dsimp only
  rw [if_pos hee, if_pos hsgn, hsp]

theorem lexExp_nosign_nomatch {c s : Char} {r2 x : List Char}
    (hee : (c == 'e' || c == 'E') = true) (hsgn : (s == '+' || s == '-') = false)
    (hsp : spanDigits (s :: r2) = ([], x)) :
    lexExp (c :: s :: r2) = ([], c :: s :: r2) := by
  rw [lexExp.eq_def]
  dsimp only
  rw [if_pos hee, if_neg (by simp [hsgn]), hsp]

theorem lexExp_nosign_match {c s d : Char} {r2 ds r3 : List Char}
    (hee : (c == 'e' || c == 'E') = true) (hsgn : (s == '+' || s == '-') = false)
    (hsp : spanDigits (s :: r2) = (d :: ds, r3)) :
    lexExp (c :: s :: r2) = (c :: d :: ds, r3) := by
  rw [lexExp.eq_def]
  dsimp only
  rw [if_pos hee, if_neg (by simp [hsgn]), hsp]

theorem lexExp_replay {l ep r4 : List Char} (h : lexExp l = (ep, r4)) :
    l = ep ++ r4 ∧
      (ep ≠ [] → ∃ dl, ep.getLast? = some dl ∧ dl.isDigit = true) ∧
      ∀ r4' w, r4 = r4' ++ w → (∀ c ∈ w, isPyWs c = true) →
        lexExp (ep ++ r4') = (ep, r4') := by
  match l with
  | [] =>
    simp only [lexExp, Prod.mk.injEq] at h
    obtain ⟨hep, hr4⟩ := h
    subst hep hr4
    refine ⟨rfl, by simp, ?_⟩
    intro r4' w hte hw
    have : r4' = [] := by
      cases r4' with
      | nil => rfl
      | cons a t => simp at hte
    subst this
    rfl
  | c :: r =>
    cases hee : (c == 'e' || c == 'E') with
    | false =>
      rw [lexExp_not_e r hee] at h
      simp only [Prod.mk.injEq] at h
      obtain ⟨hep, hr4⟩ := h
      subst hep hr4
      refine ⟨by simp, by simp, ?_⟩
      intro r4' w hte hw
      cases r4' with
      | nil => rfl
      | cons a t' =>
        simp only [List.cons_append, List.cons.injEq] at hte
        obtain ⟨rfl, ht⟩ := hte
        simp only [List.nil_append]
        exact lexExp_not_e t' hee
    | true =>
      match r with
      | [] =>
        rw [lexExp_e_nil hee] at h
        simp only [Prod.mk.injEq] at h
        obtain ⟨hep, hr4⟩ := h
        subst hep hr4
        refine ⟨by simp, by simp, ?_⟩
        intro r4' w hte hw
        cases r4' with
        | nil => rfl
        | cons a t' =>
          simp only [List.cons_append, List.cons.injEq] at hte
          obtain ⟨rfl, ht⟩ := hte
          obtain rfl : t' = [] := by
            cases t' with
            | nil => rfl
            | cons b bs => simp at ht
          simp only [List.nil_append]
          exact lexExp_e_nil hee
      | s :: r2 =>
        cases hsgn : (s == '+' || s == '-') with
        | true =>
          rcases hsp : spanDigits r2 with ⟨ds, r3⟩
          obtain ⟨hsp1, hall, hfail⟩ := spanDigits_run_eq hsp
          cases ds with
          | nil =>
            rw [lexExp_sign_nomatch hee hsgn hsp] at h
            simp only [Prod.mk.injEq] at h
            obtain ⟨hep, hr4⟩ := h
            subst hep hr4
            simp only [List.nil_append] at hsp1
            refine ⟨by simp, by simp, ?_⟩
            intro r4' w hte hw
            cases r4' with
            | nil => rfl
            | cons a t' =>
              simp only [List.cons_append, List.cons.injEq] at hte
              obtain ⟨rfl, ht⟩ := hte
              simp only [List.nil_append]
              cases t' with
              | nil => exact lexExp_e_nil hee
              | cons b t2 =>
                simp only [List.cons_append, List.cons.injEq] at ht
                obtain ⟨rfl, ht2⟩ := ht
                have hr2 : r3 = t2 ++ w := by rw [← hsp1]; exact ht2
                exact lexExp_sign_nomatch hee hsgn
                  (spanDigits_nil_of_head (trunc_head_fail hr2 hw hfail))
          | cons d ds' =>
            rw [lexExp_sign_match hee hsgn hsp] at h
            simp only [Prod.mk.injEq] at h
            obtain ⟨hep, hr4⟩ := h
            subst hep hr4
            refine ⟨by simp [hsp1], ?_, ?_⟩
            · intro
              obtain ⟨dl, hdl, hdlmem⟩ := getLast?_of_ne_nil (l := d :: ds') (by simp)
              refine ⟨dl, ?_, hall dl hdlmem⟩
              rw [List.getLast?_cons_cons, List.getLast?_cons_cons]
              exact hdl
            · intro r4' w hte hw
              have hspa := @spanDigits_append (d :: ds') r4' hall
                (trunc_head_fail hte hw hfail)
              simp only [List.cons_append] at hspa ⊢
              exact lexExp_sign_match hee hsgn hspa
        | false =>
          rcases hsp : spanDigits (s :: r2) with ⟨ds, r3⟩
          obtain ⟨hsp1, hall, hfail⟩ := spanDigits_run_eq hsp
          cases ds with
          | nil =>
            rw [lexExp_nosign_nomatch hee hsgn hsp] at h
            simp only [Prod.mk.injEq] at h
            obtain ⟨hep, hr4⟩ := h
            subst hep hr4
            simp only [List.nil_append] at hsp1
            have hsdig : s.isDigit = false := hfail s (by rw [← hsp1]; rfl)
            refine ⟨by simp, by simp, ?_⟩
            intro r4' w hte hw
            cases r4' with
            | nil => rfl
            | cons a t' =>
              simp only [List.cons_append, List.cons.injEq] at hte
              obtain ⟨rfl, ht⟩ := hte
              simp only [List.nil_append]
              cases t' with
              | nil => exact lexExp_e_nil hee
              | cons b t2 =>
                simp only [List.cons_append, List.cons.injEq] at ht
                obtain ⟨rfl, ht2⟩ := ht
                refine lexExp_nosign_nomatch hee hsgn (spanDigits_nil_of_head ?_)
                intro hch hh
                simp only [List.head?_cons, Option.some_inj] at hh
                rw [← hh]
                exact hsdig
          | cons d ds' =>
            rw [lexExp_nosign_match hee hsgn hsp] at h
            simp only [Prod.mk.injEq] at h
            obtain ⟨hep, hr4⟩ := h
            subst hep hr4
            have hd : s = d := by
              simpa using congrArg (fun x => x.head?) hsp1
            have hddig : d.isDigit = true := hall d (by simp)
            refine ⟨?_, ?_, ?_⟩
            · rw [List.cons_append]
              rw [hsp1]
            · intro
              obtain ⟨dl, hdl, hdlmem⟩ := getLast?_of_ne_nil (l := d :: ds') (by simp)
              refine ⟨dl, ?_, hall dl hdlmem⟩
              rw [List.getLast?_cons_cons]
              exact hdl
            · intro r4' w hte hw
              have hnsgn : (d == '+' || d == '-') = false := by
                simp only [Bool.or_eq_false_iff]
                exact ⟨digit_ne_of_toNat '+' hddig (by decide),
                  digit_ne_of_toNat '-' hddig (by decide)⟩
              have hspa := @spanDigits_append (d :: ds') r4' hall
                (trunc_head_fail hte hw hfail)
              simp only [List.cons_append] at hspa ⊢
              exact lexExp_nosign_match hee hnsgn hspa

theorem getLast?_append_right {x y : List Char} {dl : Char} (h : y.getLast? = some dl) :
    (x ++ y).getLast? = some dl := by
  rw [List.getLast?_append, h]
  rfl

theorem getLast?_cons_of_ne_nil {c : Char} {x : List Char} (h : x ≠ []) :
    (c :: x).getLast? = x.getLast? := by
  cases x with
  | nil => exact absurd rfl h
  | cons a t => rw [List.getLast?_cons_cons]

theorem num_last {ip fp1 ep1 : List Char}
    (hilast : ∃ dl, ip.getLast? = some dl ∧ dl.isDigit = true)
    (hflast : fp1 ≠ [] → ∃ dl, fp1.getLast? = some dl ∧ dl.isDigit = true)
    (helast : ep1 ≠ [] → ∃ dl, ep1.getLast? = some dl ∧ dl.isDigit = true) :
    ∃ dl, (ip ++ fp1 ++ ep1).getLast? = some dl ∧ dl.isDigit = true := by
  by_cases hep : ep1 = []
  · subst hep
    rw [List.append_nil]
    by_cases hfp : fp1 = []
    · subst hfp
      rw [List.append_nil]
      exact hilast
    · obtain ⟨dl, hdl, hdig⟩ := hflast hfp
      exact ⟨dl, getLast?_append_right hdl, hdig⟩
  · obtain ⟨dl, hdl, hdig⟩ := helast hep
    exact ⟨dl, getLast?_append_right hdl, hdig⟩

theorem lexNumber_replay {l tok rest : List Char} (h : lexNumber l = some (tok, rest)) :
    l = tok ++ rest ∧ tok ≠ [] ∧
      (∃ dl, tok.getLast? = some dl ∧ dl.isDigit = true) ∧
      ∀ rest2 w, rest = rest2 ++ w → (∀ c ∈ w, isPyWs c = true) →
        lexNumber (tok ++ rest2) = some (tok, rest2) := by
  match l with
  | [] => simp [lexNumber] at h
  | c :: r =>
    rw [lexNumber.eq_def] at h
    dsimp only at h
    cases hm : (c == '-') with
    | true =>
      rw [hm] at h
      simp only [if_true] at h
      cases hint : lexInt r with
      | none => rw [hint] at h; exact absurd h (by simp)
      | some p =>
        obtain ⟨ip, r2⟩ := p
        rw [hint] at h
        dsimp only at h
        rcases hfr : lexFrac r2 with ⟨fp1, fp2⟩
        rcases hex : lexExp fp2 with ⟨ep1, ep2⟩
        rw [hfr] at h
        dsimp only at h
        rw [hex] at h
        dsimp only at h
        simp only [Option.some_inj, Prod.mk.injEq] at h
        obtain ⟨htok, hrest⟩ := h
        subst htok hrest
        obtain ⟨hieq, hine, hilast, hirep⟩ := lexInt_replay hint
        obtain ⟨hfeq, hflast, hfrep⟩ := lexFrac_replay hfr
        obtain ⟨heeq, helast, herep⟩ := lexExp_replay hex
        refine ⟨?_, by simp, ?_, ?_⟩
        · rw [hieq, hfeq, heeq]
          simp
        · obtain ⟨dl, hdl, hdig⟩ := num_last hilast hflast helast
          refine ⟨dl, ?_, hdig⟩
          rw [getLast?_cons_of_ne_nil (by simp [hine])]
          exact hdl
        · intro rest2 w he hw
          have he2 : fp2 = (ep1 ++ rest2) ++ w := by
            rw [heeq, he]
            simp [List.append_assoc]
          have he3 : r2 = (fp1 ++ (ep1 ++ rest2)) ++ w := by
            rw [hfeq, he2]
            simp [List.append_assoc]
          have hi := hirep (fp1 ++ (ep1 ++ rest2)) w he3 hw
          have hf := hfrep (ep1 ++ rest2) w he2 hw
          have hx := herep rest2 w he hw
          simp only [List.cons_append]
          rw [lexNumber.eq_def]
          dsimp only
          rw [hm]
          simp only [if_true]
          have hi' : lexInt (ip ++ fp1 ++ ep1 ++ rest2) = some (ip, fp1 ++ (ep1 ++ rest2)) := by
            rw [← hi]
            congr 1
            simp [List.append_assoc]
          rw [hi']
          dsimp only
          rw [hf]
          dsimp only
          rw [hx]
    | false =>
      rw [hm] at h
      simp only [Bool.false_eq_true, if_false] at h
      cases hint : lexInt (c :: r) with
      | none => rw [hint] at h; exact absurd h (by simp)
      | some p =>
        obtain ⟨ip, r2⟩ := p
        rw [hint] at h
        dsimp only at h
        rcases hfr : lexFrac r2 with ⟨fp1, fp2⟩
        rcases hex : lexExp fp2 with ⟨ep1, ep2⟩
        rw [hfr] at h
        dsimp only at h
        rw [hex] at h
        dsimp only at h
        simp only [Option.some_inj, Prod.mk.injEq] at h
        obtain ⟨htok, hrest⟩ := h
        subst htok hrest
        obtain ⟨hieq, hine, hilast, hirep⟩ := lexInt_replay hint
        obtain ⟨hfeq, hflast, hfrep⟩ := lexFrac_replay hfr
        obtain ⟨heeq, helast, herep⟩ := lexExp_replay hex
        obtain ⟨i0, ip', rfl⟩ : ∃ i0 ip', ip = i0 :: ip' := by
          cases ip with
          | nil => exact absurd rfl hine
          | cons i0 ip' => exact ⟨i0, ip', rfl⟩
        obtain rfl : c = i0 := by
          have := hieq
          simp only [List.cons_append, List.cons.injEq] at this
          exact this.1
        refine ⟨?_, by simp, num_last hilast hflast helast, ?_⟩
        · have hsp := hieq
          simp only [List.cons_append, List.cons.injEq, true_and] at hsp
          rw [hfeq, heeq] at hsp
          simp only [List.cons_append, List.cons.injEq, List.append_assoc, true_and]
          exact hsp
        · intro rest2 w he hw
          have he2 : fp2 = (ep1 ++ rest2) ++ w := by
            rw [heeq, he]
            simp [List.append_assoc]
          have he3 : r2 = (fp1 ++ (ep1 ++ rest2)) ++ w := by
            rw [hfeq, he2]
            simp [List.append_assoc]
          have hi := hirep (fp1 ++ (ep1 ++ rest2)) w he3 hw
          have hf := hfrep (ep1 ++ rest2) w he2 hw
          have hx := herep rest2 w he hw
          simp only [List.cons_append]
          rw [lexNumber.eq_def]
          dsimp only
          rw [hm]
          simp only [Bool.false_eq_true, if_false]
          have hi' : lexInt (c :: (ip' ++ fp1 ++ ep1 ++ rest2)) =
              some (c :: ip', fp1 ++ (ep1 ++ rest2)) := by
            rw [← hi]
            congr 1
            simp [List.append_assoc]
          rw [hi']
          dsimp only
          rw [hf]
          dsimp only
          rw [hx]
          simp [List.append_assoc]

theorem startsWithL_spec {p r : List Char} (h : startsWithL p r = true) :
    r = p ++ r.drop p.length := by
  induction p generalizing r with
  | nil => simp
  | cons a p IH =>
    cases r with
    | nil => simp [startsWithL] at h
    | cons b t =>
      simp only [startsWithL, Bool.and_eq_true, beq_iff_eq] at h
      obtain ⟨rfl, h2⟩ := h
      simpa using IH h2

theorem startsWithL_append_self (p y : List Char) : startsWithL p (p ++ y) = true := by
  induction p with
  | nil => rfl
  | cons a p IH => simpa [startsWithL]

theorem lexToken_replay {l : List Char} {t : Tok} {rest : List Char}
    (h : lexToken l = some (t, rest)) :
    ∃ C, l = C ++ rest ∧ C ≠ [] ∧
      (∃ d, C.getLast? = some d ∧ isPyWs d = false) ∧
      ∀ rest2 w, rest = rest2 ++ w → (∀ c ∈ w, isPyWs c = true) →
        lexToken (C ++ rest2) = some (t, rest2) := by
  match l with
  | [] => simp [lexToken] at h
  | c :: r =>
    simp only [lexToken] at h
    by_cases h1 : (c == '\x7b') = true
    · rw [if_pos h1] at h
      simp only [Option.some_inj, Prod.mk.injEq] at h
      obtain ⟨rfl, rfl⟩ := h
      have hc : c = '\x7b' := by simpa using h1
      subst hc
      refine ⟨['\x7b'], rfl, by simp, ⟨'\x7b', rfl, by decide⟩, ?_⟩
      intro rest2 w he hw
      simp only [List.singleton_append, lexToken]
      rw [if_pos h1]
    · rw [if_neg h1] at h
      by_cases h2 : (c == '\x7d') = true
      · rw [if_pos h2] at h
        simp only [Option.some_inj, Prod.mk.injEq] at h
        obtain ⟨rfl, rfl⟩ := h
        have hc : c = '\x7d' := by simpa using h2
        subst hc
        refine ⟨['\x7d'], rfl, by simp, ⟨'\x7d', rfl, by decide⟩, ?_⟩
        intro rest2 w he hw
        simp only [List.singleton_append, lexToken]
        rw [if_neg h1, if_pos h2]
      · rw [if_neg h2] at h
        by_cases h3 : (c == '[') = true
        · rw [if_pos h3] at h
          simp only [Option.some_inj, Prod.mk.injEq] at h
          obtain ⟨rfl, rfl⟩ := h
          have hc : c = '[' := by simpa using h3
          subst hc
          refine ⟨['['], rfl, by simp, ⟨'[', rfl, by decide⟩, ?_⟩
          intro rest2 w he hw
          simp only [List.singleton_append, lexToken]
          rw [if_neg h1, if_neg h2, if_pos h3]
        · rw [if_neg h3] at h
          by_cases h4 : (c == ']') = true
          · rw [if_pos h4] at h
            simp only [Option.some_inj, Prod.mk.injEq] at h
            obtain ⟨rfl, rfl⟩ := h
            have hc : c = ']' := by simpa using h4
            subst hc
            refine ⟨[']'], rfl, by simp, ⟨']', rfl, by decide⟩, ?_⟩
            intro rest2 w he hw
            simp only [List.singleton_append, lexToken]
            rw [if_neg h1, if_neg h2, if_neg h3, if_pos h4]
          · rw [if_neg h4] at h
            by_cases h5 : (c == ',') = true
            · rw [if_pos h5] at h
              simp only [Option.some_inj, Prod.mk.injEq] at h
              obtain ⟨rfl, rfl⟩ := h
              have hc : c = ',' := by simpa using h5
              subst hc
              refine ⟨[','], rfl, by simp, ⟨',', rfl, by decide⟩, ?_⟩
              intro rest2 w he hw
              simp only [List.singleton_append, lexToken]
              rw [if_neg h1, if_neg h2, if_neg h3, if_neg h4, if_pos h5]
            · rw [if_neg h5] at h
              by_cases h6 : (c == ':') = true
              · rw [if_pos h6] at h
                simp only [Option.some_inj, Prod.mk.injEq] at h
                obtain ⟨rfl, rfl⟩ := h
                have hc : c = ':' := by simpa using h6
                subst hc
                refine ⟨[':'], rfl, by simp, ⟨':', rfl, by decide⟩, ?_⟩
                intro rest2 w he hw
                simp only [List.singleton_append, lexToken]
                rw [if_neg h1, if_neg h2, if_neg h3, if_neg h4, if_neg h5, if_pos h6]
              · rw [if_neg h6] at h
                by_cases h7 : (c == '"') = true
                · rw [if_pos h7] at h
                  rw [Option.map_eq_some'] at h
                  obtain ⟨⟨cs, r'⟩, hlex, hmap⟩ := h
                  simp only [Prod.mk.injEq] at hmap
                  obtain ⟨rfl, rfl⟩ := hmap
                  obtain ⟨C5, hC5eq, hC5ne, hC5last, rep5⟩ :=
                    lexString_replay _ _ _ _ hlex
                  have hc : c = '"' := by simpa using h7
                  subst hc
                  refine ⟨'"' :: C5, by simp [hC5eq], by simp,
                    ⟨'"', ?_, by decide⟩, ?_⟩
                  · rw [getLast?_cons_of_ne_nil hC5ne]
                    exact hC5last
                  · intro rest2 w he hw
                    simp only [List.cons_append, lexToken]
                    rw [if_neg h1, if_neg h2, if_neg h3, if_neg h4, if_neg h5,
                      if_neg h6, if_pos h7]
                    rw [rep5 ((C5 ++ rest2).length + 1) rest2
                      (by simp only [List.length_append]; omega)]
                    rfl
                · rw [if_neg h7] at h
                  by_cases h8 : (c == 't') = true
                  · rw [if_pos h8] at h
                    by_cases hsw : startsWithL ['r', 'u', 'e'] r = true
                    · rw [if_pos hsw] at h
                      simp only [Option.some_inj, Prod.mk.injEq] at h
                      obtain ⟨rfl, rfl⟩ := h
                      have hc : c = 't' := by simpa using h8
                      subst hc
                      obtain ⟨rd, rfl⟩ : ∃ rd, r = 'r' :: 'u' :: 'e' :: rd :=
                        ⟨r.drop 3, by simpa using startsWithL_spec hsw⟩
                      refine ⟨['t', 'r', 'u', 'e'], by simp, by simp,
                        ⟨'e', by simp, by decide⟩, ?_⟩
                      intro rest2 w he hw
                      simp only [List.cons_append, List.nil_append, lexToken]
                      rw [if_neg h1, if_neg h2, if_neg h3, if_neg h4, if_neg h5,
                        if_neg h6, if_neg h7, if_pos h8]
                      rw [if_pos (by simpa using startsWithL_append_self ['r', 'u', 'e'] rest2)]
                      rfl
                    · rw [if_neg hsw] at h
                      exact absurd h (by simp)
                  · rw [if_neg h8] at h
                    by_cases h9 : (c == 'f') = true
                    · rw [if_pos h9] at h
                      by_cases hsw : startsWithL ['a', 'l', 's', 'e'] r = true
                      · rw [if_pos hsw] at h
                        simp only [Option.some_inj, Prod.mk.injEq] at h
                        obtain ⟨rfl, rfl⟩ := h
                        have hc : c = 'f' := by simpa using h9
                        subst hc
                        obtain ⟨rd, rfl⟩ : ∃ rd, r = 'a' :: 'l' :: 's' :: 'e' :: rd :=
                          ⟨r.drop 4, by simpa using startsWithL_spec hsw⟩
                        refine ⟨['f', 'a', 'l', 's', 'e'], by simp, by simp,
                          ⟨'e', by simp, by decide⟩, ?_⟩
                        intro rest2 w he hw
                        simp only [List.cons_append, List.nil_append, lexToken]
                        rw [if_neg h1, if_neg h2, if_neg h3, if_neg h4, if_neg h5,
                          if_neg h6, if_neg h7, if_neg h8, if_pos h9]
                        rw [if_pos (by simpa using
                          startsWithL_append_self ['a', 'l', 's', 'e'] rest2)]
                        rfl
                      · rw [if_neg hsw] at h
                        exact absurd h (by simp)
                    · rw [if_neg h9] at h
                      by_cases h10 : (c == 'n') = true
                      · rw [if_pos h10] at h
                        by_cases hsw : startsWithL ['u', 'l', 'l'] r = true
                        · rw [if_pos hsw] at h
                          simp only [Option.some_inj, Prod.mk.injEq] at h
                          obtain ⟨rfl, rfl⟩ := h
                          have hc : c = 'n' := by simpa using h10
                          subst hc
                          obtain ⟨rd, rfl⟩ : ∃ rd, r = 'u' :: 'l' :: 'l' :: rd :=
                            ⟨r.drop 3, by simpa using startsWithL_spec hsw⟩
                          refine ⟨['n', 'u', 'l', 'l'], by simp, by simp,
                            ⟨'l', by simp, by decide⟩, ?_⟩
                          intro rest2 w he hw
                          simp only [List.cons_append, List.nil_append, lexToken]
                          rw [if_neg h1, if_neg h2, if_neg h3, if_neg h4, if_neg h5,
                            if_neg h6, if_neg h7, if_neg h8, if_neg h9, if_pos h10]
                          rw [if_pos (by simpa using
                            startsWithL_append_self ['u', 'l', 'l'] rest2)]
                          rfl
                        · rw [if_neg hsw] at h
                          exact absurd h (by simp)
                      · rw [if_neg h10] at h
                        by_cases h11 : (c == 'N') = true
                        · rw [if_pos h11] at h
                          by_cases hsw : startsWithL ['a', 'N'] r = true
                          · rw [if_pos hsw] at h
                            simp only [Option.some_inj, Prod.mk.injEq] at h
                            obtain ⟨rfl, rfl⟩ := h
                            have hc : c = 'N' := by simpa using h11
                            subst hc
                            obtain ⟨rd, rfl⟩ : ∃ rd, r = 'a' :: 'N' :: rd :=
                              ⟨r.drop 2, by simpa using startsWithL_spec hsw⟩
                            refine ⟨['N', 'a', 'N'], by simp, by simp,
                              ⟨'N', by simp, by decide⟩, ?_⟩
                            intro rest2 w he hw
                            simp only [List.cons_append, List.nil_append, lexToken]
                            rw [if_neg h1, if_neg h2, if_neg h3, if_neg h4, if_neg h5,
                              if_neg h6, if_neg h7, if_neg h8, if_neg h9, if_neg h10,
                              if_pos h11]
                            rw [if_pos (by simpa using
                              startsWithL_append_self ['a', 'N'] rest2)]
                            rfl
                          · rw [if_neg hsw] at h
                            exact absurd h (by simp)
                        · rw [if_neg h11] at h
                          by_cases h12 : (c == 'I') = true
                          · rw [if_pos h12] at h
                            by_cases hsw :
                                startsWithL ['n', 'f', 'i', 'n', 'i', 't', 'y'] r = true
                            · rw [if_pos hsw] at h
                              simp only [Option.some_inj, Prod.mk.injEq] at h
                              obtain ⟨rfl, rfl⟩ := h
                              have hc : c = 'I' := by simpa using h12
                              subst hc
                              obtain ⟨rd, rfl⟩ :
                                  ∃ rd, r = 'n' :: 'f' :: 'i' :: 'n' :: 'i' :: 't' :: 'y' :: rd :=
                                ⟨r.drop 7, by simpa using startsWithL_spec hsw⟩
                              refine ⟨['I', 'n', 'f', 'i', 'n', 'i', 't', 'y'], by simp, by simp,
                                ⟨'y', by simp, by decide⟩, ?_⟩
                              intro rest2 w he hw
                              simp only [List.cons_append, List.nil_append, lexToken]
                              rw [if_neg h1, if_neg h2, if_neg h3, if_neg h4, if_neg h5,
                                if_neg h6, if_neg h7, if_neg h8, if_neg h9, if_neg h10,
                                if_neg h11, if_pos h12]
                              rw [if_pos (by simpa using
                                startsWithL_append_self ['n', 'f', 'i', 'n', 'i', 't', 'y'] rest2)]
                              rfl
                            · rw [if_neg hsw] at h
                              exact absurd h (by simp)
                          · rw [if_neg h12] at h
                            by_cases h13 : (c == '-' || c.isDigit) = true
                            · rw [if_pos h13] at h
                              cases hn : lexNumber (c :: r) with
                              | some p =>
                                obtain ⟨tok, r'⟩ := p
                                rw [hn] at h
                                dsimp only at h
                                simp only [Option.some_inj, Prod.mk.injEq] at h
                                obtain ⟨rfl, rfl⟩ := h
                                obtain ⟨hneq, hnne, hnlast, hnrep⟩ := lexNumber_replay hn
                                obtain ⟨t0, tok', rfl⟩ : ∃ t0 tok', tok = t0 :: tok' := by
                                  cases tok with
                                  | nil => exact absurd rfl hnne
                                  | cons t0 tok' => exact ⟨t0, tok', rfl⟩
                                obtain rfl : c = t0 := by
                                  have := hneq
                                  simp only [List.cons_append, List.cons.injEq] at this
                                  exact this.1
                                obtain ⟨dl, hdl, hdig⟩ := hnlast
                                refine ⟨c :: tok', hneq, by simp,
                                  ⟨dl, hdl, digit_not_pyws hdig⟩, ?_⟩
                                intro rest2 w he hw
                                have hnr := hnrep rest2 w he hw
                                simp only [List.cons_append] at hnr ⊢
                                simp only [lexToken]
                                rw [if_neg h1, if_neg h2, if_neg h3, if_neg h4, if_neg h5,
                                  if_neg h6, if_neg h7, if_neg h8, if_neg h9, if_neg h10,
                                  if_neg h11, if_neg h12, if_pos h13]
                                rw [hnr]
                              | none =>
                                rw [hn] at h
                                dsimp only at h
                                by_cases hinf :
                                    (c == '-' &&
                                      startsWithL ['I', 'n', 'f', 'i', 'n', 'i', 't', 'y'] r) = true
                                · rw [if_pos hinf] at h
                                  simp only [Option.some_inj, Prod.mk.injEq] at h
                                  obtain ⟨rfl, rfl⟩ := h
                                  have hcm : (c == '-') = true := by
                                    have := hinf
                                    simp only [Bool.and_eq_true] at this
                                    exact this.1
                                  have hsw :
                                      startsWithL ['I', 'n', 'f', 'i', 'n', 'i', 't', 'y'] r = true := by
                                    have := hinf
                                    simp only [Bool.and_eq_true] at this
                                    exact this.2
                                  have hc : c = '-' := by simpa using hcm
                                  subst hc
                                  obtain ⟨rd, rfl⟩ :
                                      ∃ rd, r = 'I' :: 'n' :: 'f' :: 'i' :: 'n' :: 'i' :: 't' :: 'y' :: rd :=
                                    ⟨r.drop 8, by simpa using startsWithL_spec hsw⟩
                                  refine ⟨['-', 'I', 'n', 'f', 'i', 'n', 'i', 't', 'y'],
                                    by simp, by simp, ⟨'y', by simp, by decide⟩, ?_⟩
                                  intro rest2 w he hw
                                  simp only [List.cons_append, List.nil_append, lexToken]
                                  rw [if_neg h1, if_neg h2, if_neg h3, if_neg h4, if_neg h5,
                                    if_neg h6, if_neg h7, if_neg h8, if_neg h9, if_neg h10,
                                    if_neg h11, if_neg h12, if_pos h13]
                                  have hnone :
                                      lexNumber ('-' :: 'I' :: 'n' :: 'f' :: 'i' :: 'n' :: 'i' ::
                                        't' :: 'y' :: rest2) = none := by
                                    rw [lexNumber.eq_def]
                                    dsimp only
                                    rw [if_pos (by decide)]
                                    have : lexInt ('I' :: 'n' :: 'f' :: 'i' :: 'n' :: 'i' ::
                                        't' :: 'y' :: rest2) = none := by
                                      simp only [lexInt]
                                      rw [if_neg (by decide), if_neg (by decide)]
                                    rw [this]
                                  rw [hnone]
                                  dsimp only
                                  rw [if_pos (by
                                    simp only [Bool.and_eq_true]
                                    refine ⟨by decide, ?_⟩
                                    have hx := startsWithL_append_self
                                      ['I', 'n', 'f', 'i', 'n', 'i', 't', 'y'] rest2
                                    simpa using hx)]
                                  rfl
                                · rw [if_neg hinf] at h
                                  exact absurd h (by simp)
                            · rw [if_neg h13] at h
                              exact absurd h (by simp)

/- ------------------------------------------------------------------ -/
/- Tokenizer: fuel adequacy and stability under str.strip.             -/
/- ------------------------------------------------------------------ -/

theorem exists_concat_of_getLast? {l : List Char} {d : Char}
    (h : l.getLast? = some d) : ∃ l', l = l' ++ [d] := by
  induction l using List.reverseRecOn with
  | nil => simp at h
  | append_singleton l' a _ =>
    rw [List.getLast?_concat] at h
    simp only [Option.some_inj] at h
    exact ⟨l', by rw [h]⟩

theorem skipJws_all {l : List Char} (h : skipJws l = []) :
    ∀ c ∈ l, isJws c = true := by
  rw [skipJws, List.dropWhile_eq_nil_iff] at h
  exact h

theorem skipJws_decomp (l : List Char) :
    l = l.takeWhile isJws ++ skipJws l :=
  (List.takeWhile_append_dropWhile _ _).symm

theorem skipJws_head {l : List Char} {c : Char} {r : List Char}
    (h : skipJws l = c :: r) : isJws c = false := by
  have := List.head?_dropWhile_not isJws l
  rw [skipJws] at h
  rw [h] at this
  exact this

theorem tokenize_fuel : ∀ f l, l.length < f →
    tokenize f l = tokenize (l.length + 1) l := by
  intro f
  induction f using Nat.strong_induction_on with
  | _ f IH =>
    intro l hl
    match f, hl with
    | g + 1, hl =>
      obtain ⟨n, hn⟩ : ∃ n, l.length + 1 = n + 1 := ⟨l.length, rfl⟩
      rw [hn]
      simp only [tokenize]
      cases hsk : skipJws l with
      | nil => rfl
      | cons c r =>
        cases hlt : lexToken (c :: r) with
        | none => simp only [hlt]
        | some p =>
          obtain ⟨t, rest⟩ := p
          obtain ⟨C, hCeq, hCne, _, _⟩ := lexToken_replay hlt
          have hr1 : rest.length < (c :: r).length := by
            rw [hCeq]
            simp only [List.length_append]
            cases C with
            | nil => exact absurd rfl hCne
            | cons a t2 => simp
          have hr2 : (c :: r).length ≤ l.length := by
            rw [← hsk, skipJws]
            exact (List.dropWhile_sublist _).length_le
          have ha : tokenize g rest = tokenize (rest.length + 1) rest :=
            IH g (by omega) rest (by omega)
          have hb : tokenize n rest = tokenize (rest.length + 1) rest := by
            have hn' : n = l.length := by omega
            subst hn'
            exact IH l.length (by omega) rest (by omega)
          simp only [hlt, ha, hb]

theorem tokenize_prstrip : ∀ f l ts, tokenize f l = some ts →
    tokenize f (prstrip l) = some ts := by
  intro f
  induction f with
  | zero => intro l ts h; simp [tokenize] at h
  | succ g IH =>
    intro l ts h
    simp only [tokenize] at h ⊢
    cases hsk : skipJws l with
    | nil =>
      rw [hsk] at h
      simp only [Option.some_inj] at h
      subst h
      have hall : ∀ c ∈ l, isPyWs c = true := fun c hc => jws_pyws (skipJws_all hsk c hc)
      rw [prstrip_eq_nil_iff.mpr hall]
      rfl
    | cons c r =>
      rw [hsk] at h
      dsimp only at h
      cases hlt : lexToken (c :: r) with
      | none => rw [hlt] at h; exact absurd h (by simp)
      | some p =>
        obtain ⟨t, rest⟩ := p
        rw [hlt] at h
        dsimp only at h
        cases hrec : tokenize g rest with
        | none => rw [hrec] at h; exact absurd h (by simp)
        | some ts' =>
          rw [hrec] at h
          dsimp only at h
          simp only [Option.some_inj] at h
          subst h
          obtain ⟨C, hCeq, hCne, ⟨d, hd, hdnp⟩, rep⟩ := lexToken_replay hlt
          obtain ⟨C', rfl⟩ := exists_concat_of_getLast? hd
          have hl : l = l.takeWhile isJws ++ C' ++ [d] ++ rest := by
            have h0 := skipJws_decomp l
            rw [hsk, hCeq] at h0
            simpa [List.append_assoc] using h0
          have hps : prstrip l = l.takeWhile isJws ++ C' ++ [d] ++ prstrip rest := by
            conv_lhs => rw [hl]
            rw [prstrip_span (l.takeWhile isJws ++ C') rest hdnp]
          obtain ⟨w, hw1, hw2⟩ := prstrip_decomp rest
          have hrep := rep (prstrip rest) w hw1 hw2
          have hjc : isJws c = false := skipJws_head hsk
          obtain ⟨c0, Ct, hC⟩ : ∃ c0 Ct, C' ++ [d] = c0 :: Ct := by
            cases hCC : C' ++ [d] with
            | nil => simp at hCC
            | cons c0 Ct => exact ⟨c0, Ct, rfl⟩
          have hc0 : c = c0 := by
            have h2 := hCeq
            rw [hC] at h2
            simp only [List.cons_append, List.cons.injEq] at h2
            exact h2.1
          subst hc0
          rw [hps]
          have hform : l.takeWhile isJws ++ C' ++ [d] ++ prstrip rest =
              l.takeWhile isJws ++ (c :: (Ct ++ prstrip rest)) := by
            calc ((l.takeWhile isJws ++ C') ++ [d]) ++ prstrip rest
                = l.takeWhile isJws ++ ((C' ++ [d]) ++ prstrip rest) := by
                  simp [List.append_assoc]
              _ = l.takeWhile isJws ++ ((c :: Ct) ++ prstrip rest) := by rw [hC]
              _ = l.takeWhile isJws ++ (c :: (Ct ++ prstrip rest)) := by simp
          rw [hform]
          have hskip2 : skipJws (l.takeWhile isJws ++ (c :: (Ct ++ prstrip rest))) =
              c :: (Ct ++ prstrip rest) := by
            rw [skipJws, dropWhile_all _ (fun x hx => List.mem_takeWhile_imp hx)]
            exact dropWhile_cons_false _ hjc
          rw [hskip2]
          dsimp only
          rw [hC] at hrep
          simp only [List.cons_append] at hrep
          rw [hrep]
          dsimp only
          rw [IH rest ts' hrec]

theorem tokenize_plstrip : ∀ f l ts, tokenize f l = some ts →
    tokenize f (plstrip l) = some ts := by
  intro f
  match f with
  | 0 => intro l ts h; simp [tokenize] at h
  | g + 1 =>
    intro l ts h
    simp only [tokenize] at h ⊢
    cases hsk : skipJws l with
    | nil =>
      rw [hsk] at h
      simp only [Option.some_inj] at h
      subst h
      have hall : ∀ c ∈ l, isPyWs c = true := fun c hc => jws_pyws (skipJws_all hsk c hc)
      have : plstrip l = [] := by
        rw [plstrip, List.dropWhile_eq_nil_iff]
        exact hall
      rw [this]
      rfl
    | cons c r =>
      rw [hsk] at h
      dsimp only at h
      cases hlt : lexToken (c :: r) with
      | none => rw [hlt] at h; exact absurd h (by simp)
      | some p =>
        obtain ⟨t, rest⟩ := p
        rw [hlt] at h
        have hth : tokHead c = true := lexToken_head hlt
        have hnp : isPyWs c = false := tokHead_not_pyws hth
        have hjc : isJws c = false := skipJws_head hsk
        have hpl : plstrip l = c :: r := by
          conv_lhs => rw [skipJws_decomp l, hsk]
          rw [plstrip, dropWhile_all _ (fun x hx => jws_pyws (List.mem_takeWhile_imp hx))]
          exact dropWhile_cons_false _ hnp
        rw [hpl]
        have : skipJws (c :: r) = c :: r := dropWhile_cons_false _ hjc
        rw [this]
        dsimp only
        rw [hlt]
        exact h

theorem json_loads_pyStrip {s : String} {j : Json} (h : json_loads s = some j) :
    json_loads (pyStrip s) = some j := by
  unfold json_loads at h ⊢
  cases htk : tokenize (s.data.length + 1) s.data with
  | none => rw [htk] at h; exact absurd h (by simp)
  | some ts =>
    rw [htk] at h
    have h1 := tokenize_prstrip _ _ _ htk
    have h2 := tokenize_plstrip _ _ _ h1
    have hq : (pyStrip s).data = pyStripL s.data := rfl
    rw [hq]
    have hlen : (pyStripL s.data).length ≤ s.data.length := pyStripL_length_le _
    have h3 : tokenize ((pyStripL s.data).length + 1) (pyStripL s.data) = some ts := by
      rw [tokenize_fuel ((pyStripL s.data).length + 1) (pyStripL s.data) (by omega)]
      rw [← tokenize_fuel (s.data.length + 1) (pyStripL s.data) (by omega)]
      exact h2
    rw [h3]
    exact h

theorem parseTop_nil_none : parseTop ([] : List Tok) = none := rfl

theorem postprocess_of_valid {t : String} {j : Json} (h : json_loads t = some j) :
    postprocess t = t := by
  unfold json_loads at h
  cases htk : tokenize (t.data.length + 1) t.data with
  | none => rw [htk] at h; exact absurd h (by simp)
  | some ts =>
    rw [htk] at h
    dsimp only at h
    obtain ⟨t0, ts', rfl⟩ : ∃ t0 ts', ts = t0 :: ts' := by
      cases ts with
      | nil => exact absurd (parseTop_nil_none ▸ h) (by simp)
      | cons t0 ts' => exact ⟨t0, ts', rfl⟩
    simp only [tokenize] at htk
    cases hsk : skipJws t.data with
    | nil =>
      rw [hsk] at htk
      exact absurd htk (by simp)
    | cons c r =>
      rw [hsk] at htk
      dsimp only at htk
      cases hlt : lexToken (c :: r) with
      | none => rw [hlt] at htk; exact absurd htk (by simp)
      | some p =>
        have hth : tokHead c = true := lexToken_head hlt
        have hnp : isPyWs c = false := tokHead_not_pyws hth
        have hstrip : pyStripL t.data = c :: prstrip r := by
          have hpr : prstrip t.data = t.data.takeWhile isJws ++ (c :: prstrip r) := by
            conv_lhs => rw [skipJws_decomp t.data, hsk]
            rw [prstrip_append_keep _ (by rw [prstrip_cons_not _ hnp]; simp)]
            rw [prstrip_cons_not _ hnp]
          rw [pyStripL, hpr, plstrip,
            dropWhile_all _ (fun x hx => jws_pyws (List.mem_takeWhile_imp hx))]
          exact dropWhile_cons_false _ hnp
        unfold postprocess
        dsimp only
        rw [hstrip, tokHead_not_fence _ hth]
        simp

theorem dropRightN_append (A B : List Char) : dropRightN B.length (A ++ B) = A := by
  rw [dropRightN, List.length_append]
  have : A.length + B.length - B.length = A.length := by omega
  rw [this]
  exact List.take_left A B

theorem postprocess_fenced (s : String) :
    postprocess ("```json\n" ++ s ++ "\n```") = pyStrip s := by
  have hdata : ("```json\n" ++ s ++ "\n```").data =
      ("```json\n").data ++ s.data ++ ("\n```").data := by
    rw [String.data_append, String.data_append]
  have hshape : ("```json\n").data ++ s.data ++ ("\n```").data =
      (("```json\n").data ++ s.data ++ ['\n', '`', '`']) ++ ['`'] := by
    simp
  have hcons : ("```json\n").data ++ s.data ++ ("\n```").data =
      '`' :: (("``json\n").data ++ s.data ++ ("\n```").data) := rfl
  have hstrip : pyStripL (("```json\n").data ++ s.data ++ ("\n```").data) =
      ("```json\n").data ++ s.data ++ ("\n```").data := by
    rw [pyStripL, hshape, prstrip_last_not _ (by decide), ← hshape, hcons, plstrip,
      dropWhile_cons_false _ (by decide), ← hcons]
  have hsplit : ("```json\n").data = ("```json").data ++ ['\n'] := rfl
  have hpre : startsWithL ("```json").data
      (("```json\n").data ++ s.data ++ ("\n```").data) = true := by
    have hx : ("```json\n").data ++ s.data ++ ("\n```").data =
        ("```json").data ++ ('\n' :: (s.data ++ ("\n```").data)) := by
      rw [hsplit]
      simp
    rw [hx]
    exact startsWithL_append_self _ _
  have hdrop : (("```json\n").data ++ s.data ++ ("\n```").data).drop 7 =
      '\n' :: (s.data ++ ("\n```").data) := by
    have hx : ("```json\n").data ++ s.data ++ ("\n```").data =
        ("```json").data ++ ('\n' :: (s.data ++ ("\n```").data)) := by
      rw [hsplit]
      simp
    have h7 : ("```json").data.length = 7 := rfl
    rw [hx, ← h7]
    exact List.drop_left _ _
  have hdr : dropRightN 3 ('\n' :: (s.data ++ ("\n```").data)) =
      '\n' :: (s.data ++ ['\n']) := by
    have hx : '\n' :: (s.data ++ ("\n```").data) =
        ('\n' :: (s.data ++ ['\n'])) ++ ['`', '`', '`'] := by simp
    rw [hx]
    exact dropRightN_append _ _
  have hfin : pyStripL ('\n' :: (s.data ++ ['\n'])) = pyStripL s.data := by
    have h2 : ('\n' :: (s.data ++ ['\n'])) = ('\n' :: s.data) ++ ['\n'] := by simp
    have h1 : prstrip (('\n' :: s.data) ++ ['\n']) = prstrip ('\n' :: s.data) :=
      prstrip_append_all _ (by intro x hx; simp at hx; subst hx; decide)
    rw [pyStripL, h2, h1]
    by_cases hpn : prstrip s.data = []
    · have hall : ∀ x ∈ s.data, isPyWs x = true := prstrip_eq_nil_iff.mp hpn
      have hnil : prstrip ('\n' :: s.data) = [] := by
        rw [prstrip_eq_nil_iff]
        intro x hx
        simp only [List.mem_cons] at hx
        rcases hx with rfl | hx
        · decide
        · exact hall x hx
      rw [hnil, pyStripL, hpn]
    · have hkeep : prstrip ('\n' :: s.data) = '\n' :: prstrip s.data := by
        have := prstrip_append_keep (y := s.data) ['\n'] hpn
        simpa using this
      rw [hkeep, pyStripL, plstrip, List.dropWhile_cons]
      simp only [show isPyWs '\n' = true from rfl, if_true]
      rfl
  unfold postprocess
  dsimp only
  rw [hdata, hstrip, hpre]
  simp only [if_true]
  rw [hdrop, hdr, hfin]
  rfl

/-- C4: post-processing the fenced text obtained by wrapping a valid JSON
text s in a markdown json fence strips the fence, so parsing the
post-processed text yields the same object as parsing s directly; and
post-processing a valid JSON text itself leaves it unchanged before
parsing. -/
theorem claim_C4 :
    (∀ (s : String) (j : Json), json_loads s = some j →
      json_loads (postprocess ("```json\n" ++ s ++ "\n```")) = some j) ∧
    (∀ (t : String) (j : Json), json_loads t = some j →
      postprocess t = t) := by
  constructor
  · intro s j h
    rw [postprocess_fenced]
    exact json_loads_pyStrip h
  · intro t j h
    exact postprocess_of_valid h

theorem claim_C4_witness :
    json_loads "true" = some (Json.bool true) ∧
      json_loads (postprocess ("```json\n" ++ "true" ++ "\n```")) =
        some (Json.bool true) ∧
      postprocess "true" = "true" :=
  ⟨rfl, claim_C4.1 "true" (Json.bool true) rfl,
    claim_C4.2 "true" (Json.bool true) rfl⟩

/-- C1: on a POST request with a configured client, both file fields
present and truthy, and an upstream endpoint whose stubbed response text
parses as a JSON object carrying the keys doc1_highlighted,
doc2_highlighted and summary, the handler renders the page with results
equal to that parsed object and error equal to None. -/
theorem claim_C1 (deployment : Option String) (req : Request)
    (api : ChatCall → Except String String) (t : String) (j : Json)
    (hm : req.method = Method.POST)
    (hf1 : fileFalsy req.file1 = false) (hf2 : fileFalsy req.file2 = false)
    (hapi : ∀ c, api c = Except.ok t)
    (hj : json_loads t = some j)
    (h1 : hasKey j "doc1_highlighted" = true)
    (h2 : hasKey j "doc2_highlighted" = true)
    (h3 : hasKey j "summary" = true) :
    (index true deployment req api).page = { results := some j, error := none } := by
  obtain ⟨m, g1, g2⟩ := req
  simp only at hm hf1 hf2
  subst hm
  cases g1 with
  | none => exact absurd hf1 (by simp [fileFalsy])
  | some a =>
    cases g2 with
    | none => exact absurd hf2 (by simp [fileFalsy])
    | some b =>
      simp only [fileFalsy] at hf1 hf2
      have hc : (a.filename == "" || b.filename == "") = false := by
        simp [hf1, hf2]
      simp only [index, hc, Bool.not_true, Bool.false_eq_true, if_false, if_true]
      rw [hapi]
      dsimp only
      rw [postprocess_of_valid hj, hj]

theorem claim_C1_witness :
    json_loads stubResponse = some stubParsed ∧
      hasKey stubParsed "doc1_highlighted" = true ∧
      hasKey stubParsed "doc2_highlighted" = true ∧
      hasKey stubParsed "summary" = true ∧
      (index true (some "gpt")
        { method := Method.POST,
          file1 := some { filename := "doc_a.txt",
                          readResult := Except.ok (codes "The quick brown fox") },
          file2 := some { filename := "doc_b.txt",
                          readResult := Except.ok (codes "The quick red fox") } }
        (fun _ => Except.ok stubResponse)).page =
        { results := some stubParsed, error := none } :=
  ⟨rfl, rfl, rfl, rfl,
    claim_C1 (some "gpt") _ _ stubResponse stubParsed rfl rfl rfl
      (fun _ => rfl) rfl rfl rfl rfl⟩
